import Mathlib

/-!
Real-time pitch shifter: ring-buffer pipeline and control automaton.

A shallow embedding of `src/task2.3.cpp`.

* The control thread (`GetUserInput`, `new_state`, `end_program`) is a
  function over the characters returned by `getchar`.
* The three stage threads (`ReadStream`, `ProcessBlock`, `WriteBlock`) and the
  wake-up loop of `end_program` are a labelled step function over an explicit
  pipeline state; each label is one atomic step of one thread.

`SHIFT_AMOUNT` is a C `float`.  Every value the program can store in it is a
multiple of `0.5` between `0.5` and `2.0`, all of which are exact binary
fractions, so the comparisons with `2.0` and `0.5` and the updates by `0.5`
are exact; the embedding uses rational numbers for it.
-/

namespace PitchShifter

/-! ## Constants (`src/task2.3.cpp`, lines 14-24) -/

/-- Mode tag `#define PASS 0`. -/
def PASS : Int := 0

/-- Mode tag `#define SHIFT 1`. -/
def SHIFT : Int := 1

/-- Block length `const int BUFFER_SIZE = 128`. -/
def BUFFER_SIZE : Nat := 128

/-- Ring capacity `const int RING_SIZE = 16`. -/
def RING_SIZE : Nat := 16

/-! ## Control thread (`GetUserInput`, lines 147-225) -/

/-- Lines written to `cout` by the control thread.  The numeric argument of
`shiftAmountNow` is the value streamed after the text `SHIFT_AMOUNT now: `. -/
inductive Message where
  | nowInPassthrough
  | nowInPitchShift
  | shiftAmountNow (v : ℚ)
  | limitReached
deriving DecidableEq

/-- Globals read and written by the control thread: `state` (line 29),
`SHIFT_AMOUNT` (line 24), `kill_thread` (line 27), and the lines printed so
far. -/
structure Control where
  state : Int
  SHIFT_AMOUNT : ℚ
  kill_thread : Bool
  printed : List Message
deriving DecidableEq

/-- Globals at program start: `state = PASS`, `SHIFT_AMOUNT = 1.0f`,
`kill_thread(false)`. -/
def startup : Control :=
  { state := PASS, SHIFT_AMOUNT := 1, kill_thread := false, printed := [] }

/-- Append one line to the output. -/
def Control.print (c : Control) (m : Message) : Control :=
  { c with printed := c.printed ++ [m] }

/-- Function `new_state` (lines 147-151). -/
def new_state (ns : Int) (c : Control) : Control :=
  let c1 := { c with state := ns }
  let c2 := if ns = PASS then c1.print Message.nowInPassthrough else c1
  if ns = SHIFT then c2.print Message.nowInPitchShift else c2

/-- Effect of `end_program` (lines 153-163) on the control thread's globals:
`kill_thread = true`.  Its `notify_all` loop acts on the pipeline and is the
`Label.endProgram` step there. -/
def end_program (c : Control) : Control :=
  { c with kill_thread := true }

/-- One pass through the body of `while (1)` in `GetUserInput` with
`key_in` the character returned by `getchar`.  The Boolean is `true` when
the function executed `return`. -/
def GetUserInput_body (key_in : Char) (c : Control) : Control × Bool :=
  if c.state = PASS then
    -- case PASS
    let c1 := if key_in = 's' then new_state SHIFT c else c
    if key_in = 'q' then (end_program c1, true) else (c1, false)
  else if c.state = SHIFT then
    -- case SHIFT
    let c1 :=
      if key_in = 'p' then { new_state PASS c with SHIFT_AMOUNT := 1 } else c
    let c2 :=
      if key_in = 'u' then
        if c1.SHIFT_AMOUNT < 2 then
          let c1a := { c1 with SHIFT_AMOUNT := c1.SHIFT_AMOUNT + 1 / 2 }
          c1a.print (Message.shiftAmountNow c1a.SHIFT_AMOUNT)
        else c1.print Message.limitReached
      else c1
    let c3 :=
      if key_in = 'd' then
        if c2.SHIFT_AMOUNT > 1 / 2 then
          let c2a := { c2 with SHIFT_AMOUNT := c2.SHIFT_AMOUNT - 1 / 2 }
          c2a.print (Message.shiftAmountNow c2a.SHIFT_AMOUNT)
        else c2.print Message.limitReached
      else c2
    if key_in = 'q' then (end_program c3, true) else (c3, false)
  else
    -- the switch has no default case
    (c, false)

/-- Function `GetUserInput` run on the characters `keys` delivered by
`getchar`, in order.  It stops at the first `return`; characters after it are
never read.  When `keys` is exhausted the thread is blocked in `getchar`. -/
def GetUserInput : List Char → Control → Control
  | [], c => c
  | key_in :: rest, c =>
    let r := GetUserInput_body key_in c
    if r.2 then r.1 else GetUserInput rest r.1

/-! ## Ring buffer and stage threads (lines 33-145, 153-163) -/

/-- Declaration `enum class SlotStatus { EMPTY, FILLED, PROCESSED }`. -/
inductive SlotStatus where
  | EMPTY
  | FILLED
  | PROCESSED
deriving DecidableEq

/-- One audio sample.  The stage loops copy samples and hand them to external
calls; they never compute with them. -/
abbrev Sample := ℚ

/-- Data of `struct ring_buffer_slot`: `block` and `status`.  The members
`mtx` and `cv` are represented by the program counters of the threads using
them (see `Pc`). -/
structure ring_buffer_slot where
  block : List Sample
  status : SlotStatus
deriving DecidableEq

/-- The three stage threads: `capture` runs `ReadStream`, `transform` runs
`ProcessBlock`, `playback` runs `WriteBlock`. -/
inductive Stage where
  | capture
  | transform
  | playback
deriving DecidableEq

/-- Status in the predicate passed to `cv.wait` by each stage (lines 62, 92,
129). -/
def Stage.expected : Stage → SlotStatus
  | Stage.capture => SlotStatus.EMPTY
  | Stage.transform => SlotStatus.FILLED
  | Stage.playback => SlotStatus.PROCESSED

/-- Status each stage stores after its external call (lines 72, 116, 141). -/
def Stage.target : Stage → SlotStatus
  | Stage.capture => SlotStatus.FILLED
  | Stage.transform => SlotStatus.PROCESSED
  | Stage.playback => SlotStatus.EMPTY

/-- Control points of a stage thread inside its loop.

* `loopTest`: about to evaluate `while (!kill_thread)`.
* `lockWait`: about to acquire the slot mutex and evaluate the wait
  predicate (on first arrival, or after having been notified).
* `waitEnter`: holds the mutex, the predicate was false, about to release
  the mutex and block on the condition variable.
* `parked`: blocked on the condition variable, mutex released.
* `killTest`: `cv.wait` has returned, mutex held, about to evaluate
  `if (kill_thread) break`.
* `action`: mutex held, about to make the external call, store the new
  status, call `notify_one` and advance the index.
* `exited`: the loop has ended. -/
inductive Pc where
  | loopTest
  | lockWait
  | waitEnter
  | parked
  | killTest
  | action
  | exited
deriving DecidableEq

/-- State of the pipeline: the global `ring_buffer` and `kill_thread`, the
local index and the control point of each stage thread, and the progress of
`end_program` (`none`: not called; `some i`: `kill_thread` stored and the next
`notify_all` is for slot `i`).  The fields `captured`, `transformed` and
`played` are history counters, not program variables: the number of
iterations each stage has completed. -/
structure Pipeline where
  ring_buffer : List ring_buffer_slot
  read_index : Nat
  process_index : Nat
  write_index : Nat
  kill_thread : Bool
  pcRead : Pc
  pcProcess : Pc
  pcWrite : Pc
  endPc : Option Nat
  captured : Nat
  transformed : Nat
  played : Nat
deriving DecidableEq

/-- Index variable of a stage. -/
def Pipeline.cursor (s : Pipeline) : Stage → Nat
  | Stage.capture => s.read_index
  | Stage.transform => s.process_index
  | Stage.playback => s.write_index

/-- Control point of a stage. -/
def Pipeline.pc (s : Pipeline) : Stage → Pc
  | Stage.capture => s.pcRead
  | Stage.transform => s.pcProcess
  | Stage.playback => s.pcWrite

/-- History counter of a stage. -/
def Pipeline.count (s : Pipeline) : Stage → Nat
  | Stage.capture => s.captured
  | Stage.transform => s.transformed
  | Stage.playback => s.played

/-- Move a stage to another control point. -/
def Pipeline.setPc (s : Pipeline) (st : Stage) (p : Pc) : Pipeline :=
  match st with
  | Stage.capture => { s with pcRead := p }
  | Stage.transform => { s with pcProcess := p }
  | Stage.playback => { s with pcWrite := p }

/-- Status of slot `i`, when `i` is inside the ring. -/
def Pipeline.statusAt (s : Pipeline) (i : Nat) : Option SlotStatus :=
  (s.ring_buffer[i]?).map ring_buffer_slot.status

/-- Samples of slot `i`, when `i` is inside the ring. -/
def Pipeline.blockAt (s : Pipeline) (i : Nat) : Option (List Sample) :=
  (s.ring_buffer[i]?).map ring_buffer_slot.block

/-- Stage `st` holds the mutex of slot `i`. -/
def Pipeline.holdsLock (s : Pipeline) (st : Stage) (i : Nat) : Bool :=
  s.cursor st = i ∧ (s.pc st = Pc.waitEnter ∨ s.pc st = Pc.killTest ∨ s.pc st = Pc.action)

/-- No stage other than `st` holds the mutex of slot `i`. -/
def Pipeline.mutexFree (s : Pipeline) (st : Stage) (i : Nat) : Bool :=
  [Stage.capture, Stage.transform, Stage.playback].all
    (fun o => o = st ∨ ¬ s.holdsLock o i)

/-- Stage `st` is blocked on the condition variable of slot `i`. -/
def Pipeline.isWaiter (s : Pipeline) (st : Stage) (i : Nat) : Bool :=
  s.cursor st = i ∧ s.pc st = Pc.parked

/-- Stage `st` is notified if it is blocked on the condition variable of
slot `i`: it leaves the wait queue and will re-acquire the mutex. -/
def Pipeline.wake (s : Pipeline) (st : Stage) (i : Nat) : Pipeline :=
  if s.isWaiter st i then s.setPc st Pc.lockWait else s

/-- Call `ring_buffer[i].cv.notify_one()`.  With no thread blocked on the
condition variable nothing happens; otherwise one blocked thread is
released, and `pick` says which.  The result is `none` when `pick` is not
blocked there although another thread is. -/
def Pipeline.notify_one (s : Pipeline) (i : Nat) (pick : Stage) : Option Pipeline :=
  if [Stage.capture, Stage.transform, Stage.playback].all (fun o => ¬ s.isWaiter o i) then
    some s
  else if s.isWaiter pick i then some (s.setPc pick Pc.lockWait)
  else none

/-- Call `ring_buffer[i].cv.notify_all()`. -/
def Pipeline.notify_all (s : Pipeline) (i : Nat) : Pipeline :=
  ((s.wake Stage.capture i).wake Stage.transform i).wake Stage.playback i

/-- Samples of the slot after the external call of stage `st`:
`Pa_ReadStream` and `smbPitchShift` leave `blk` in the block, and
`Pa_WriteStream` only reads it. -/
def Stage.external (st : Stage) (blk old : List Sample) : List Sample :=
  match st with
  | Stage.capture => blk
  | Stage.transform => blk
  | Stage.playback => old

/-- Store `x` into `ring_buffer[i]`. -/
def Pipeline.store (s : Pipeline) (i : Nat) (x : ring_buffer_slot) : Pipeline :=
  { s with ring_buffer := s.ring_buffer.set i x }

/-- End of a loop body (lines 74, 118, 143): `index = (index + 1) % N`, the
mutex is released, and control returns to the loop test.  The stage has
completed one more iteration. -/
def Pipeline.advance (N : Nat) (st : Stage) (s : Pipeline) : Pipeline :=
  match st with
  | Stage.capture =>
    { s with read_index := (s.read_index + 1) % N, pcRead := Pc.loopTest,
             captured := s.captured + 1 }
  | Stage.transform =>
    { s with process_index := (s.process_index + 1) % N, pcProcess := Pc.loopTest,
             transformed := s.transformed + 1 }
  | Stage.playback =>
    { s with write_index := (s.write_index + 1) % N, pcWrite := Pc.loopTest,
             played := s.played + 1 }

/-- Lines 67-74, 101-118 and 137-143: the external call, the status store,
`notify_one`, and the index update, for ring capacity `N`.  This is the path
on which `checkErr` returns; on a device error `checkErr` ends the process and
no thread takes another step. -/
def Pipeline.act (N : Nat) (st : Stage) (blk : List Sample) (pick : Stage)
    (s : Pipeline) : Option Pipeline :=
  match s.ring_buffer[s.cursor st]? with
  | none => none
  | some slot =>
    ((s.store (s.cursor st)
        { block := st.external blk slot.block, status := st.target }).notify_one
      (s.cursor st) pick).map (Pipeline.advance N st)

/-- One atomic step of the loop of `ReadStream` (`st = capture`),
`ProcessBlock` (`st = transform`) or `WriteBlock` (`st = playback`) for ring
capacity `N`.  `blk` is what the external call leaves in the block and `pick`
resolves `notify_one`; both matter only at `Pc.action`.  The result is `none`
when the thread cannot move: the mutex is held by another stage, the thread is
blocked on the condition variable, or it has left the loop. -/
def stageStep (N : Nat) (st : Stage) (blk : List Sample) (pick : Stage)
    (s : Pipeline) : Option Pipeline :=
  match s.pc st with
  | Pc.loopTest =>
    some (if s.kill_thread then s.setPc st Pc.exited else s.setPc st Pc.lockWait)
  | Pc.lockWait =>
    if s.mutexFree st (s.cursor st) then
      match s.ring_buffer[s.cursor st]? with
      | none => none
      | some slot =>
        if slot.status = st.expected ∨ s.kill_thread then some (s.setPc st Pc.killTest)
        else some (s.setPc st Pc.waitEnter)
    else none
  | Pc.waitEnter => some (s.setPc st Pc.parked)
  | Pc.parked => none
  | Pc.killTest =>
    some (if s.kill_thread then s.setPc st Pc.exited else s.setPc st Pc.action)
  | Pc.action => s.act N st blk pick
  | Pc.exited => none

/-- Thread function `ReadStream` (lines 55-76): one atomic step. -/
def ReadStream (N : Nat) (blk : List Sample) (pick : Stage) (s : Pipeline) :
    Option Pipeline :=
  stageStep N Stage.capture blk pick s

/-- Thread function `ProcessBlock` (lines 79-120): one atomic step. -/
def ProcessBlock (N : Nat) (blk : List Sample) (pick : Stage) (s : Pipeline) :
    Option Pipeline :=
  stageStep N Stage.transform blk pick s

/-- Thread function `WriteBlock` (lines 122-145): one atomic step. -/
def WriteBlock (N : Nat) (blk : List Sample) (pick : Stage) (s : Pipeline) :
    Option Pipeline :=
  stageStep N Stage.playback blk pick s

/-- One atomic step of `end_program` (lines 153-163) on the pipeline: first
the store `kill_thread = true`, then one `notify_all` per loop iteration. -/
def end_program_step (N : Nat) (s : Pipeline) : Option Pipeline :=
  match s.endPc with
  | none => some { s with kill_thread := true, endPc := some 0 }
  | some i =>
    if i < N then some { s.notify_all i with endPc := some (i + 1) } else none

/-- A wake-up without notification, which `std::condition_variable::wait`
permits: the thread leaves the wait queue and re-evaluates its predicate. -/
def spurious_wakeup (st : Stage) (s : Pipeline) : Option Pipeline :=
  if s.pc st = Pc.parked then some (s.setPc st Pc.lockWait) else none

/-- Atomic steps of the pipeline. -/
inductive Label where
  | read (blk : List Sample) (pick : Stage)
  | process (blk : List Sample) (pick : Stage)
  | write (blk : List Sample) (pick : Stage)
  | endProgram
  | spurious (st : Stage)

/-- Label under which stage `st` takes a step. -/
def Label.ofStage (st : Stage) (blk : List Sample) (pick : Stage) : Label :=
  match st with
  | Stage.capture => Label.read blk pick
  | Stage.transform => Label.process blk pick
  | Stage.playback => Label.write blk pick

/-- Step function of the pipeline with ring capacity `N`. -/
def step (N : Nat) (l : Label) (s : Pipeline) : Option Pipeline :=
  match l with
  | Label.read blk pick => ReadStream N blk pick s
  | Label.process blk pick => ProcessBlock N blk pick s
  | Label.write blk pick => WriteBlock N blk pick s
  | Label.endProgram => end_program_step N s
  | Label.spurious st => spurious_wakeup st s

/-- Run a schedule, failing if one of its steps cannot be taken. -/
def run (N : Nat) : List Label → Pipeline → Option Pipeline
  | [], s => some s
  | l :: ls, s => (step N l s).bind (run N ls)

/-- Pipeline at the moment the threads are started: every slot zero-filled
with `status = EMPTY` (line 40), all indices `0`, `kill_thread` false. -/
def init (N : Nat) : Pipeline :=
  { ring_buffer := List.replicate N
      { block := List.replicate BUFFER_SIZE 0, status := SlotStatus.EMPTY },
    read_index := 0, process_index := 0, write_index := 0,
    kill_thread := false,
    pcRead := Pc.loopTest, pcProcess := Pc.loopTest, pcWrite := Pc.loopTest,
    endPc := none, captured := 0, transformed := 0, played := 0 }

/-- States the pipeline can be in after some schedule from `init`. -/
def Reachable (N : Nat) (s : Pipeline) : Prop :=
  ∃ ls : List Label, run N ls (init N) = some s

/-- Invariant of the pipeline for ring capacity `N`.  Writing `c`, `t`, `p`
for the history counters of capture, transform and playback: the ring has `N`
slots; each index is its counter modulo `N`; `p ≤ t ≤ c ≤ p + N`; block
numbers in `[p, t)` sit in `PROCESSED` slots, those in `[t, c)` in `FILLED`
slots and those in `[c, p + N)` in `EMPTY` slots; a stage at `Pc.action`
sees the status it waited for; a stage at `Pc.killTest` sees it unless
`kill_thread` is set. -/
structure Inv (N : Nat) (s : Pipeline) : Prop where
  len : s.ring_buffer.length = N
  cur : ∀ st : Stage, s.cursor st = s.count st % N
  le1 : s.played ≤ s.transformed
  le2 : s.transformed ≤ s.captured
  le3 : s.captured ≤ s.played + N
  stP : ∀ j, s.played ≤ j → j < s.transformed →
    s.statusAt (j % N) = some SlotStatus.PROCESSED
  stF : ∀ j, s.transformed ≤ j → j < s.captured →
    s.statusAt (j % N) = some SlotStatus.FILLED
  stE : ∀ j, s.captured ≤ j → j < s.played + N →
    s.statusAt (j % N) = some SlotStatus.EMPTY
  act : ∀ st : Stage, s.pc st = Pc.action → s.statusAt (s.cursor st) = some st.expected
  kt : ∀ st : Stage, s.pc st = Pc.killTest →
    s.kill_thread = true ∨ s.statusAt (s.cursor st) = some st.expected

/-- Two states agree on the ring, the flag, the indices and the counters, and
control points differ only by threads released from a wait. -/
structure Woken (s s' : Pipeline) : Prop where
  ring : s'.ring_buffer = s.ring_buffer
  kill : s'.kill_thread = s.kill_thread
  cursor : ∀ o : Stage, s'.cursor o = s.cursor o
  count : ∀ o : Stage, s'.count o = s.count o
  pc : ∀ o : Stage, s'.pc o = s.pc o ∨ (s.pc o = Pc.parked ∧ s'.pc o = Pc.lockWait)

/-- Lock discipline of the pipeline: a slot mutex is held by at most one
stage; a stage has left its loop only after `kill_thread` was set; and
`end_program` sets `kill_thread` before its first `notify_all`. -/
structure LockInv (s : Pipeline) : Prop where
  mutex : ∀ (a b : Stage) (i : Nat), a ≠ b → s.holdsLock a i = true →
    s.holdsLock b i = true → False
  exited : ∀ o : Stage, s.pc o = Pc.exited → s.kill_thread = true
  ending : s.endPc ≠ none → s.kill_thread = true

/-- Steps made by the program's own threads, as opposed to a wake-up without
notification, which the runtime may or may not produce. -/
def Label.isProgramStep : Label → Bool
  | Label.spurious _ => false
  | _ => true

/-- Capture can fill a slot from state `s`: some schedule of program steps
from `s` ends with one more block captured. -/
def CanFill (N : Nat) (s : Pipeline) : Prop :=
  ∃ (ls : List Label) (s2 : Pipeline),
    (∀ l ∈ ls, l.isProgramStep = true) ∧ run N ls s = some s2 ∧
    s2.captured = s.captured + 1

/-- Capture fills the slot at its index within `k` steps of its own: some
schedule of at most `k` steps of `ReadStream` from `s` ends with one more
block captured and that slot `FILLED`. -/
def CaptureFillsWithin (N k : Nat) (s : Pipeline) : Prop :=
  ∃ (ls : List Label) (s2 : Pipeline), ls.length ≤ k ∧
    (∀ l ∈ ls, ∃ (b : List Sample) (pick : Stage), l = Label.read b pick) ∧
    run N ls s = some s2 ∧ s2.captured = s.captured + 1 ∧
    s2.statusAt s.read_index = some SlotStatus.FILLED

/-- Capture is stuck: it is blocked on the condition variable of its slot
although the slot is `EMPTY`, or `kill_thread` is set and capture is not
inside its loop body. -/
def CaptureStuck (s : Pipeline) : Prop :=
  (s.pcRead = Pc.parked ∧ s.statusAt s.read_index = some SlotStatus.EMPTY) ∨
  (s.kill_thread = true ∧ s.pcRead ≠ Pc.action)

/-! ## Example schedules -/

/-- Block delivered by the external calls in the example schedules. -/
def exampleBlock : List Sample := List.replicate BUFFER_SIZE 1

/-- State after a schedule from `init N`, or `init N` itself when the schedule
cannot be run. -/
def afterSchedule (N : Nat) (ls : List Label) : Pipeline :=
  (run N ls (init N)).getD (init N)

/-- Schedule in which capture runs one whole iteration: loop test, wait
predicate, kill test, loop body. -/
def captureOnce : List Label :=
  List.replicate 4 (Label.read exampleBlock Stage.capture)

/-- Schedule in which transform runs one whole iteration. -/
def transformOnce : List Label :=
  List.replicate 4 (Label.process exampleBlock Stage.capture)

/-- Schedule that brings capture to `Pc.action` on slot `0`. -/
def captureReady : List Label :=
  List.replicate 3 (Label.read exampleBlock Stage.capture)

/-- Schedule for a ring of capacity `4` in which capture fills slots `0` to
`3` while transform and playback do not run. -/
def fillRing4 : List Label :=
  captureOnce ++ captureOnce ++ captureOnce ++ captureOnce

/-- Schedule in which transform and then playback block on slot `0` before
capture has filled it, and capture reaches its loop body on slot `0`. -/
def bothParked : List Label :=
  List.replicate 3 (Label.process exampleBlock Stage.capture) ++
  List.replicate 3 (Label.write exampleBlock Stage.capture) ++
  List.replicate 3 (Label.read exampleBlock Stage.capture)

/-- Continuation of `bothParked`: capture fills slot `0` and its `notify_one`
releases playback, which finds the status `FILLED`, not `PROCESSED`, and
blocks again. -/
def lostWakeup : List Label :=
  bothParked ++ [Label.read exampleBlock Stage.playback] ++
  List.replicate 2 (Label.write exampleBlock Stage.capture)

/-- Continuation of `lostWakeup`: capture fills the remaining fifteen slots
and blocks on slot `0`, which is still `FILLED`. -/
def lostWakeupStall : List Label :=
  lostWakeup ++ List.replicate 60 (Label.read exampleBlock Stage.capture) ++
  List.replicate 3 (Label.read exampleBlock Stage.capture)

/-- Schedule that leaves transform blocked on slot `2` with status `EMPTY`:
capture fills slots `0` and `1`, transform processes both and then waits for
slot `2`. -/
def transformParkedOnSlot2 : List Label :=
  captureOnce ++ captureOnce ++ transformOnce ++ transformOnce ++
  List.replicate 3 (Label.process exampleBlock Stage.capture)

/-- Continuation of `transformParkedOnSlot2`: `end_program` stores
`kill_thread` and calls `notify_all` on slots `0`, `1` and `2`. -/
def shutdownReachesSlot2 : List Label :=
  transformParkedOnSlot2 ++ List.replicate 4 Label.endProgram

/-- Schedule for a ring of capacity `4`: capture fills slots `0` to `3`,
transform processes all four, capture and then transform block on slot `0`
(status `PROCESSED`), and playback reaches its loop body on slot `0`. -/
def captureAndTransformParked : List Label :=
  fillRing4 ++ transformOnce ++ transformOnce ++ transformOnce ++ transformOnce ++
  List.replicate 3 (Label.read exampleBlock Stage.capture) ++
  List.replicate 3 (Label.process exampleBlock Stage.capture) ++
  List.replicate 3 (Label.write exampleBlock Stage.capture)

/-- Schedule for a ring of capacity `4`: capture fills slots `0` to `3`,
transform processes slot `0`, playback reaches its loop body on slot `0`, and
then `end_program` stores `kill_thread`. -/
def shutdownDuringPlayback : List Label :=
  fillRing4 ++ transformOnce ++
  List.replicate 3 (Label.write exampleBlock Stage.capture) ++ [Label.endProgram]

/-- Schedule for a ring of capacity `4`: capture fills slots `0` to `3`,
transform processes slot `0`, capture blocks on slot `0` as its only waiter,
and playback reaches its loop body on slot `0`. -/
def captureParkedAlone : List Label :=
  fillRing4 ++ transformOnce ++
  List.replicate 3 (Label.read exampleBlock Stage.capture) ++
  List.replicate 3 (Label.write exampleBlock Stage.capture)

/-! ## Facts about the control thread -/

/-- Values of `(state, SHIFT_AMOUNT)` that the control thread can produce
from `startup`. -/
def ControlInv (c : Control) : Prop :=
  (c.state = PASS ∧ c.SHIFT_AMOUNT = 1) ∨
  (c.state = SHIFT ∧
    (c.SHIFT_AMOUNT = 1 / 2 ∨ c.SHIFT_AMOUNT = 1 ∨ c.SHIFT_AMOUNT = 3 / 2 ∨
      c.SHIFT_AMOUNT = 2))

theorem controlInv_startup : ControlInv startup := by
  left
  simp [startup]

theorem controlInv_body (key_in : Char) (c : Control) (h : ControlInv c) :
    ControlInv (GetUserInput_body key_in c).1 := by
  rcases c with ⟨st, amt, k, out⟩
  rcases h with ⟨h1, h2⟩ | ⟨h1, h2⟩
  · simp only at h1 h2
    subst h1 h2
    by_cases hs : key_in = 's' <;> by_cases hq : key_in = 'q' <;>
      simp [GetUserInput_body, new_state, end_program, Control.print, ControlInv,
        PASS, SHIFT, hs, hq]
  · simp only at h1 h2
    subst h1
    by_cases hp : key_in = 'p' <;> by_cases hu : key_in = 'u' <;>
      by_cases hd : key_in = 'd' <;> by_cases hq : key_in = 'q' <;>
      rcases h2 with h2 | h2 | h2 | h2 <;> subst h2 <;>
      simp [GetUserInput_body, new_state, end_program, Control.print, ControlInv,
        PASS, SHIFT, hp, hu, hd, hq] <;> norm_num

theorem controlInv_run (keys : List Char) :
    ∀ c : Control, ControlInv c → ControlInv (GetUserInput keys c) := by
  induction keys with
  | nil => intro c h; exact h
  | cons k rest ih =>
    intro c h
    have hb := controlInv_body k c h
    simp only [GetUserInput]
    split
    · exact hb
    · exact ih _ hb

theorem controlInv_bounds (c : Control) (h : ControlInv c) :
    1 / 2 ≤ c.SHIFT_AMOUNT ∧ c.SHIFT_AMOUNT ≤ 2 := by
  rcases h with ⟨_, h⟩ | ⟨_, h | h | h | h⟩ <;> rw [h] <;> norm_num

theorem controlInv_pass (c : Control) (h : ControlInv c) (hp : c.state = PASS) :
    c.SHIFT_AMOUNT = 1 := by
  rcases h with ⟨_, h⟩ | ⟨hs, _⟩
  · exact h
  · rw [hp] at hs
    simp [PASS, SHIFT] at hs

/-- The mode tag stays one of the two defined values. -/
theorem body_mode_valid (key_in : Char) (c : Control)
    (h : c.state = PASS ∨ c.state = SHIFT) :
    (GetUserInput_body key_in c).1.state = PASS ∨
      (GetUserInput_body key_in c).1.state = SHIFT := by
  rcases c with ⟨st, amt, k, out⟩
  rcases h with h | h <;> simp only at h <;> subst h
  · by_cases hs : key_in = 's' <;> by_cases hq : key_in = 'q' <;>
      simp [GetUserInput_body, new_state, end_program, Control.print, PASS, SHIFT, hs, hq]
  · by_cases hp : key_in = 'p' <;> by_cases hu : key_in = 'u' <;>
      by_cases hd : key_in = 'd' <;> by_cases hq : key_in = 'q' <;>
      simp [GetUserInput_body, new_state, end_program, Control.print, PASS, SHIFT,
        hp, hu, hd, hq] <;> split <;> simp

/-- In either mode the loop body returns exactly on `q`. -/
theorem body_returns_iff (key_in : Char) (c : Control)
    (h : c.state = PASS ∨ c.state = SHIFT) :
    (GetUserInput_body key_in c).2 = true ↔ key_in = 'q' := by
  rcases h with h | h
  · by_cases hq : key_in = 'q' <;> simp [GetUserInput_body, h, hq]
  · by_cases hq : key_in = 'q' <;> simp [GetUserInput_body, h, hq, PASS, SHIFT]

/-- The loop body never clears `kill_thread`. -/
theorem body_kill_mono (key_in : Char) (c : Control) (h : c.kill_thread = true) :
    (GetUserInput_body key_in c).1.kill_thread = true := by
  rcases c with ⟨st, amt, k, out⟩
  simp only at h
  subst h
  by_cases hP : st = PASS
  · subst hP
    by_cases hs : key_in = 's' <;> by_cases hq : key_in = 'q' <;>
      simp [GetUserInput_body, new_state, end_program, Control.print, PASS, SHIFT, hs, hq]
  · by_cases hS : st = SHIFT
    · subst hS
      by_cases hp : key_in = 'p' <;> by_cases hu : key_in = 'u' <;>
        by_cases hd : key_in = 'd' <;> by_cases hq : key_in = 'q' <;>
        simp [GetUserInput_body, new_state, end_program, Control.print, PASS, SHIFT,
          hp, hu, hd, hq] <;> split <;> simp
    · simp [GetUserInput_body, hP, hS]

theorem run_kill_mono (keys : List Char) :
    ∀ c : Control, c.kill_thread = true → (GetUserInput keys c).kill_thread = true := by
  induction keys with
  | nil => intro c h; exact h
  | cons k rest ih =>
    intro c h
    have hb := body_kill_mono k c h
    simp only [GetUserInput]
    split
    · exact hb
    · exact ih _ hb

theorem run_stops_at_q (pre : List Char) (post : List Char) :
    ∀ c : Control, (c.state = PASS ∨ c.state = SHIFT) → 'q' ∉ pre →
      GetUserInput (pre ++ 'q' :: post) c = GetUserInput (pre ++ ['q']) c ∧
      (GetUserInput (pre ++ ['q']) c).kill_thread = true := by
  induction pre with
  | nil =>
    intro c h _
    have hr := (body_returns_iff 'q' c h).2 rfl
    simp only [List.nil_append, GetUserInput, hr, if_true, true_and]
    rcases h with h | h <;>
      simp [GetUserInput_body, new_state, end_program, Control.print, PASS, SHIFT, h]
  | cons k rest ih =>
    intro c h hq
    have hk : k ≠ 'q' := fun e => hq (by simp [e])
    have hrest : 'q' ∉ rest := fun e => hq (by simp [e])
    have hr : (GetUserInput_body k c).2 = false := by
      cases hb : (GetUserInput_body k c).2
      · rfl
      · exact absurd ((body_returns_iff k c h).1 hb) hk
    simp only [List.cons_append, GetUserInput, hr]
    exact ih _ (body_mode_valid k c h) hrest

/-! ## Facts about the pipeline -/

theorem mod_inj_of_close {N a b : Nat} (h : a % N = b % N) (hab : a ≤ b)
    (hlt : b < a + N) : a = b := by
  have hd : N ∣ b - a := (Nat.modEq_iff_dvd' hab).1 h
  have h0 : b - a = 0 := Nat.eq_zero_of_dvd_of_lt hd (by omega)
  omega

theorem mod_ne_of_close {N a b : Nat} (hab : a < b) (hlt : b < a + N) :
    a % N ≠ b % N := fun h => by
  have := mod_inj_of_close h (Nat.le_of_lt hab) hlt
  omega

@[simp] theorem setPc_ring (s : Pipeline) (st : Stage) (p : Pc) :
    (s.setPc st p).ring_buffer = s.ring_buffer := by
  cases st <;> rfl

@[simp] theorem setPc_kill (s : Pipeline) (st : Stage) (p : Pc) :
    (s.setPc st p).kill_thread = s.kill_thread := by
  cases st <;> rfl

@[simp] theorem setPc_endPc (s : Pipeline) (st : Stage) (p : Pc) :
    (s.setPc st p).endPc = s.endPc := by
  cases st <;> rfl

@[simp] theorem setPc_cursor (s : Pipeline) (st o : Stage) (p : Pc) :
    (s.setPc st p).cursor o = s.cursor o := by
  cases st <;> cases o <;> rfl

@[simp] theorem setPc_count (s : Pipeline) (st o : Stage) (p : Pc) :
    (s.setPc st p).count o = s.count o := by
  cases st <;> cases o <;> rfl

@[simp] theorem setPc_captured (s : Pipeline) (st : Stage) (p : Pc) :
    (s.setPc st p).captured = s.captured := by
  cases st <;> rfl

@[simp] theorem setPc_transformed (s : Pipeline) (st : Stage) (p : Pc) :
    (s.setPc st p).transformed = s.transformed := by
  cases st <;> rfl

@[simp] theorem setPc_played (s : Pipeline) (st : Stage) (p : Pc) :
    (s.setPc st p).played = s.played := by
  cases st <;> rfl

@[simp] theorem setPc_statusAt (s : Pipeline) (st : Stage) (p : Pc) (i : Nat) :
    (s.setPc st p).statusAt i = s.statusAt i := by
  simp [Pipeline.statusAt]

@[simp] theorem setPc_blockAt (s : Pipeline) (st : Stage) (p : Pc) (i : Nat) :
    (s.setPc st p).blockAt i = s.blockAt i := by
  simp [Pipeline.blockAt]

theorem setPc_pc (s : Pipeline) (st o : Stage) (p : Pc) :
    (s.setPc st p).pc o = if o = st then p else s.pc o := by
  cases st <;> cases o <;> simp [Pipeline.setPc, Pipeline.pc]

@[simp] theorem store_kill (s : Pipeline) (i : Nat) (x : ring_buffer_slot) :
    (s.store i x).kill_thread = s.kill_thread := rfl

@[simp] theorem store_endPc (s : Pipeline) (i : Nat) (x : ring_buffer_slot) :
    (s.store i x).endPc = s.endPc := rfl

@[simp] theorem store_cursor (s : Pipeline) (i : Nat) (x : ring_buffer_slot) (o : Stage) :
    (s.store i x).cursor o = s.cursor o := by
  cases o <;> rfl

@[simp] theorem store_count (s : Pipeline) (i : Nat) (x : ring_buffer_slot) (o : Stage) :
    (s.store i x).count o = s.count o := by
  cases o <;> rfl

@[simp] theorem store_pc (s : Pipeline) (i : Nat) (x : ring_buffer_slot) (o : Stage) :
    (s.store i x).pc o = s.pc o := by
  cases o <;> rfl

@[simp] theorem store_length (s : Pipeline) (i : Nat) (x : ring_buffer_slot) :
    (s.store i x).ring_buffer.length = s.ring_buffer.length := by
  simp [Pipeline.store]

theorem store_statusAt (s : Pipeline) (i j : Nat) (x : ring_buffer_slot) :
    (s.store i x).statusAt j =
      if j = i then (if i < s.ring_buffer.length then some x.status else none)
      else s.statusAt j := by
  by_cases h : j = i
  · subst h
    by_cases hl : j < s.ring_buffer.length
    · simp [Pipeline.statusAt, Pipeline.store, hl]
    · simp [Pipeline.statusAt, Pipeline.store, hl]
      omega
  · have h2 : ¬ i = j := fun e => h e.symm
    simp [Pipeline.statusAt, Pipeline.store, h, h2, List.getElem?_set]

theorem store_blockAt (s : Pipeline) (i j : Nat) (x : ring_buffer_slot) :
    (s.store i x).blockAt j =
      if j = i then (if i < s.ring_buffer.length then some x.block else none)
      else s.blockAt j := by
  by_cases h : j = i
  · subst h
    by_cases hl : j < s.ring_buffer.length
    · simp [Pipeline.blockAt, Pipeline.store, hl]
    · simp [Pipeline.blockAt, Pipeline.store, hl]
      omega
  · have h2 : ¬ i = j := fun e => h e.symm
    simp [Pipeline.blockAt, Pipeline.store, h, h2, List.getElem?_set]

@[simp] theorem advance_ring (N : Nat) (s : Pipeline) (st : Stage) :
    (s.advance N st).ring_buffer = s.ring_buffer := by
  cases st <;> rfl

@[simp] theorem advance_kill (N : Nat) (s : Pipeline) (st : Stage) :
    (s.advance N st).kill_thread = s.kill_thread := by
  cases st <;> rfl

@[simp] theorem advance_endPc (N : Nat) (s : Pipeline) (st : Stage) :
    (s.advance N st).endPc = s.endPc := by
  cases st <;> rfl

@[simp] theorem advance_statusAt (N : Nat) (s : Pipeline) (st : Stage) (i : Nat) :
    (s.advance N st).statusAt i = s.statusAt i := by
  simp [Pipeline.statusAt]

@[simp] theorem advance_blockAt (N : Nat) (s : Pipeline) (st : Stage) (i : Nat) :
    (s.advance N st).blockAt i = s.blockAt i := by
  simp [Pipeline.blockAt]

theorem advance_pc (N : Nat) (s : Pipeline) (st o : Stage) :
    (s.advance N st).pc o = if o = st then Pc.loopTest else s.pc o := by
  cases st <;> cases o <;> simp [Pipeline.advance, Pipeline.pc]

theorem advance_cursor (N : Nat) (s : Pipeline) (st o : Stage) :
    (s.advance N st).cursor o = if o = st then (s.cursor st + 1) % N else s.cursor o := by
  cases st <;> cases o <;> simp [Pipeline.advance, Pipeline.cursor]

theorem advance_count (N : Nat) (s : Pipeline) (st o : Stage) :
    (s.advance N st).count o = if o = st then s.count st + 1 else s.count o := by
  cases st <;> cases o <;> simp [Pipeline.advance, Pipeline.count]

theorem Woken.refl (s : Pipeline) : Woken s s :=
  ⟨rfl, rfl, fun _ => rfl, fun _ => rfl, fun _ => Or.inl rfl⟩

theorem Woken.trans {a b c : Pipeline} (h1 : Woken a b) (h2 : Woken b c) : Woken a c := by
  refine ⟨h2.ring.trans h1.ring, h2.kill.trans h1.kill,
    fun o => (h2.cursor o).trans (h1.cursor o), fun o => (h2.count o).trans (h1.count o), ?_⟩
  intro o
  rcases h1.pc o with e1 | ⟨e1, e1'⟩ <;> rcases h2.pc o with e2 | ⟨e2, e2'⟩
  · left; rw [e2, e1]
  · right; exact ⟨e1 ▸ e2, e2'⟩
  · right; exact ⟨e1, e2.trans e1'⟩
  · rw [e1'] at e2; cases e2

theorem woken_setPc_parked (s : Pipeline) (st : Stage) (h : s.pc st = Pc.parked) :
    Woken s (s.setPc st Pc.lockWait) := by
  refine ⟨by simp, by simp, by simp, by simp, ?_⟩
  intro o
  rw [setPc_pc]
  by_cases e : o = st
  · subst e; right; simp [h]
  · left; simp [e]

theorem woken_wake (s : Pipeline) (st : Stage) (i : Nat) : Woken s (s.wake st i) := by
  unfold Pipeline.wake
  split
  · rename_i h
    simp [Pipeline.isWaiter] at h
    exact woken_setPc_parked s st h.2
  · exact Woken.refl s

theorem woken_notify_all (s : Pipeline) (i : Nat) : Woken s (s.notify_all i) :=
  ((woken_wake s _ i).trans (woken_wake _ _ i)).trans (woken_wake _ _ i)

theorem woken_notify_one (s s' : Pipeline) (i : Nat) (pick : Stage)
    (h : s.notify_one i pick = some s') : Woken s s' := by
  unfold Pipeline.notify_one at h
  split at h
  · cases h; exact Woken.refl s
  · split at h
    · rename_i hw
      cases h
      simp [Pipeline.isWaiter] at hw
      exact woken_setPc_parked s pick hw.2
    · cases h

theorem woken_statusAt {s s' : Pipeline} (h : Woken s s') (i : Nat) :
    s'.statusAt i = s.statusAt i := by
  simp [Pipeline.statusAt, h.ring]

theorem woken_blockAt {s s' : Pipeline} (h : Woken s s') (i : Nat) :
    s'.blockAt i = s.blockAt i := by
  simp [Pipeline.blockAt, h.ring]

/-- The invariant only depends on the ring, the indices, the counters, and on
which stages are at `Pc.action` and `Pc.killTest`. -/
theorem inv_congr {N : Nat} {s s' : Pipeline} (h : Inv N s)
    (hr : s'.ring_buffer = s.ring_buffer)
    (hc : ∀ o : Stage, s'.cursor o = s.cursor o)
    (hn : ∀ o : Stage, s'.count o = s.count o)
    (ha : ∀ o : Stage, s'.pc o = Pc.action → s.statusAt (s.cursor o) = some o.expected)
    (hk : ∀ o : Stage, s'.pc o = Pc.killTest →
      s'.kill_thread = true ∨ s.statusAt (s.cursor o) = some o.expected) :
    Inv N s' := by
  have hs : ∀ i, s'.statusAt i = s.statusAt i := fun i => by simp [Pipeline.statusAt, hr]
  have hcap : s'.captured = s.captured := hn Stage.capture
  have htr : s'.transformed = s.transformed := hn Stage.transform
  have hpl : s'.played = s.played := hn Stage.playback
  refine ⟨by rw [hr]; exact h.len, fun o => by rw [hc, hn]; exact h.cur o,
    by rw [hpl, htr]; exact h.le1, by rw [htr, hcap]; exact h.le2,
    by rw [hcap, hpl]; exact h.le3, ?_, ?_, ?_, ?_, ?_⟩
  · intro j h1 h2; rw [hs]; exact h.stP j (hpl ▸ h1) (htr ▸ h2)
  · intro j h1 h2; rw [hs]; exact h.stF j (htr ▸ h1) (hcap ▸ h2)
  · intro j h1 h2; rw [hs]; exact h.stE j (hcap ▸ h1) (hpl ▸ h2)
  · intro o ho; rw [hs, hc]; exact ha o ho
  · intro o ho; rw [hs, hc]; exact hk o ho

theorem inv_init (N : Nat) : Inv N (init N) := by
  refine ⟨by simp [init], fun o => by cases o <;> simp [init, Pipeline.cursor, Pipeline.count],
    Nat.le_refl _, Nat.le_refl _, by simp [init], ?_, ?_, ?_, ?_, ?_⟩
  · intro j _ h2; simp [init] at h2
  · intro j _ h2; simp [init] at h2
  · intro j _ h2
    simp only [init, Nat.zero_add] at h2
    have hN : 0 < N := by omega
    have hj : j % N < N := Nat.mod_lt _ hN
    simp [init, Pipeline.statusAt, hj]
  · intro o ho; cases o <;> simp [init, Pipeline.pc] at ho
  · intro o ho; cases o <;> simp [init, Pipeline.pc] at ho

theorem inv_woken {N : Nat} {s s' : Pipeline} (h : Inv N s) (hw : Woken s s') :
    Inv N s' := by
  refine inv_congr h hw.ring hw.cursor hw.count ?_ ?_
  · intro o ho
    rcases hw.pc o with e | ⟨_, e⟩
    · exact h.act o (e ▸ ho)
    · rw [e] at ho; cases ho
  · intro o ho
    rcases hw.pc o with e | ⟨_, e⟩
    · rw [hw.kill]; exact h.kt o (e ▸ ho)
    · rw [e] at ho; cases ho

/-- Moving one stage to a control point keeps the invariant when that
control point's obligation holds. -/
theorem inv_setPc {N : Nat} {s : Pipeline} (h : Inv N s) (st : Stage) (p : Pc)
    (ha : p = Pc.action → s.statusAt (s.cursor st) = some st.expected)
    (hk : p = Pc.killTest →
      s.kill_thread = true ∨ s.statusAt (s.cursor st) = some st.expected) :
    Inv N (s.setPc st p) := by
  refine inv_congr h (by simp) (by simp) (by simp) ?_ ?_
  · intro o ho
    rw [setPc_pc] at ho
    by_cases e : o = st
    · subst e; simp at ho; exact ha ho
    · simp [e] at ho; exact h.act o ho
  · intro o ho
    rw [setPc_pc] at ho
    rw [setPc_kill]
    by_cases e : o = st
    · subst e; simp at ho; exact hk ho
    · simp [e] at ho; exact h.kt o ho

/-- What a completed loop body does to the state. -/
theorem act_spec {N : Nat} {st : Stage} {blk : List Sample} {pick : Stage}
    {s s' : Pipeline} (h : s.act N st blk pick = some s') :
    s.cursor st < s.ring_buffer.length ∧
    s'.ring_buffer.length = s.ring_buffer.length ∧
    (∀ j, s'.statusAt j = if j = s.cursor st then some st.target else s.statusAt j) ∧
    (∀ o, s'.cursor o = if o = st then (s.cursor st + 1) % N else s.cursor o) ∧
    (∀ o, s'.count o = if o = st then s.count st + 1 else s.count o) ∧
    s'.pc st = Pc.loopTest ∧
    (∀ o, o ≠ st → s'.pc o = s.pc o ∨ (s.pc o = Pc.parked ∧ s'.pc o = Pc.lockWait)) ∧
    s'.kill_thread = s.kill_thread := by
  unfold Pipeline.act at h
  split at h
  · cases h
  · rename_i slot hslot
    have hlt : s.cursor st < s.ring_buffer.length := by
      rcases List.getElem?_eq_some_iff.1 hslot with ⟨hl, _⟩
      exact hl
    cases hn : (s.store (s.cursor st)
        { block := st.external blk slot.block, status := st.target }).notify_one
        (s.cursor st) pick with
    | none => rw [hn] at h; cases h
    | some s2 =>
      rw [hn] at h
      simp only [Option.map_some', Option.some.injEq] at h
      subst h
      have hw := woken_notify_one _ _ _ _ hn
      refine ⟨hlt, ?_, ?_, ?_, ?_, ?_, ?_, ?_⟩
      · rw [advance_ring, hw.ring, store_length]
      · intro j
        rw [advance_statusAt, woken_statusAt hw, store_statusAt]
        simp [hlt]
      · intro o
        rw [advance_cursor, hw.cursor, store_cursor]
        by_cases e : o = st
        · simp [e]
        · simp [e, hw.cursor]
      · intro o
        rw [advance_count, hw.count, store_count]
        by_cases e : o = st
        · simp [e]
        · simp [e, hw.count]
      · rw [advance_pc]; simp
      · intro o e
        rw [advance_pc]
        simp only [e, if_false]
        have := hw.pc o
        simpa using this
      · rw [advance_kill, hw.kill, store_kill]

theorem inv_read_index {N : Nat} {s : Pipeline} (h : Inv N s) :
    s.read_index = s.captured % N := h.cur Stage.capture

theorem inv_process_index {N : Nat} {s : Pipeline} (h : Inv N s) :
    s.process_index = s.transformed % N := h.cur Stage.transform

theorem inv_write_index {N : Nat} {s : Pipeline} (h : Inv N s) :
    s.write_index = s.played % N := h.cur Stage.playback

/-- The slot at the capture index is `EMPTY` exactly when fewer than `N`
blocks are in flight. -/
theorem capture_slot_empty_iff {N : Nat} {s : Pipeline} (hN : 0 < N) (h : Inv N s) :
    s.statusAt s.read_index = some SlotStatus.EMPTY ↔ s.captured < s.played + N := by
  rw [inv_read_index h]
  constructor
  · intro hE
    by_contra hne
    have hc : s.captured = s.played + N := by have := h.le3; omega
    have hm : s.captured % N = s.played % N := by rw [hc]; simp
    rw [hm] at hE
    by_cases hpt : s.played < s.transformed
    · have := h.stP s.played (Nat.le_refl _) hpt
      rw [this] at hE; cases hE
    · have := h.stF s.played (by have := h.le1; omega) (by omega)
      rw [this] at hE; cases hE
  · intro hlt
    exact h.stE s.captured (Nat.le_refl _) hlt

/-- The slot at the transform index is `FILLED` exactly when a captured block
is still untransformed. -/
theorem transform_slot_filled_iff {N : Nat} {s : Pipeline} (hN : 0 < N) (h : Inv N s) :
    s.statusAt s.process_index = some SlotStatus.FILLED ↔ s.transformed < s.captured := by
  rw [inv_process_index h]
  constructor
  · intro hF
    by_contra hne
    have hc : s.transformed = s.captured := by have := h.le2; omega
    by_cases hcp : s.captured < s.played + N
    · have := h.stE s.transformed (by omega) (by omega)
      rw [this] at hF; cases hF
    · have ht : s.transformed = s.played + N := by have := h.le3; omega
      have hm : s.transformed % N = s.played % N := by rw [ht]; simp
      have := h.stP s.played (Nat.le_refl _) (by omega)
      rw [hm, this] at hF; cases hF
  · intro hlt
    exact h.stF s.transformed (Nat.le_refl _) hlt

/-- The slot at the playback index is `PROCESSED` exactly when a transformed
block is still unplayed. -/
theorem playback_slot_processed_iff {N : Nat} {s : Pipeline} (hN : 0 < N) (h : Inv N s) :
    s.statusAt s.write_index = some SlotStatus.PROCESSED ↔ s.played < s.transformed := by
  rw [inv_write_index h]
  constructor
  · intro hP
    by_contra hne
    have hc : s.played = s.transformed := by have := h.le1; omega
    by_cases htc : s.transformed < s.captured
    · have := h.stF s.played (by omega) (by omega)
      rw [this] at hP; cases hP
    · have := h.stE s.played (by have := h.le2; omega) (by omega)
      rw [this] at hP; cases hP
  · intro hlt
    exact h.stP s.played (Nat.le_refl _) hlt

/-- Stages other than the one completing its loop body keep their
obligations: they cannot be at the same slot with a different expected
status. -/
theorem inv_act_others {N : Nat} {st : Stage} {blk : List Sample} {pick : Stage}
    {s s' : Pipeline} (h : Inv N s) (hpc : s.pc st = Pc.action)
    (hs : s.act N st blk pick = some s') :
    (∀ o : Stage, s'.pc o = Pc.action → s'.statusAt (s'.cursor o) = some o.expected) ∧
    (∀ o : Stage, s'.pc o = Pc.killTest →
      s'.kill_thread = true ∨ s'.statusAt (s'.cursor o) = some o.expected) := by
  obtain ⟨_, _, hst, hcur, _, hpc', hpco, hkill⟩ := act_spec hs
  have hmine := h.act st hpc
  have key : ∀ o : Stage, o ≠ st → s.statusAt (s.cursor o) = some o.expected →
      s'.statusAt (s'.cursor o) = some o.expected := by
    intro o e ho
    have hco : s'.cursor o = s.cursor o := by rw [hcur]; simp [e]
    rw [hco, hst]
    by_cases hi : s.cursor o = s.cursor st
    · rw [hi, hmine] at ho
      exfalso
      cases o <;> cases st <;> simp [Stage.expected] at ho e
    · simp [hi, ho]
  constructor
  · intro o ho
    by_cases e : o = st
    · subst e; rw [hpc'] at ho; cases ho
    · rcases hpco o e with e1 | ⟨_, e1⟩
      · exact key o e (h.act o (e1 ▸ ho))
      · rw [e1] at ho; cases ho
  · intro o ho
    by_cases e : o = st
    · subst e; rw [hpc'] at ho; cases ho
    · rcases hpco o e with e1 | ⟨_, e1⟩
      · rcases h.kt o (e1 ▸ ho) with hk | hk
        · left; rw [hkill]; exact hk
        · right; exact key o e hk
      · rw [e1] at ho; cases ho

theorem inv_act_capture {N : Nat} {blk : List Sample} {pick : Stage} {s s' : Pipeline}
    (hN : 0 < N) (h : Inv N s) (hpc : s.pc Stage.capture = Pc.action)
    (hs : s.act N Stage.capture blk pick = some s') : Inv N s' := by
  obtain ⟨ho1, ho2⟩ := inv_act_others h hpc hs
  obtain ⟨_, hlen, hst, hcur, hcnt, _, _, _⟩ := act_spec hs
  have hgap := (capture_slot_empty_iff hN h).1 (h.act _ hpc)
  have hri : s.cursor Stage.capture = s.captured % N := h.cur _
  have hc : s'.captured = s.captured + 1 := by simpa [Pipeline.count] using hcnt Stage.capture
  have ht : s'.transformed = s.transformed := by
    simpa [Pipeline.count] using hcnt Stage.transform
  have hp : s'.played = s.played := by simpa [Pipeline.count] using hcnt Stage.playback
  have h1 := h.le1
  have h2 := h.le2
  refine ⟨hlen.trans h.len, ?_, by omega, by omega, by omega, ?_, ?_, ?_, ho1, ho2⟩
  · intro o
    rw [hcur, hcnt]
    by_cases e : o = Stage.capture
    · simp only [e, if_true]
      rw [h.cur, Nat.mod_add_mod]
    · simp only [e, if_false]
      exact h.cur o
  · intro j hj1 hj2
    have hne : j % N ≠ s.cursor Stage.capture := by
      rw [hri]; exact mod_ne_of_close (by omega) (by omega)
    rw [hst, if_neg hne]
    exact h.stP j (by omega) (by omega)
  · intro j hj1 hj2
    by_cases hj : j = s.captured
    · rw [hst, hj, ← hri]; simp [Stage.target]
    · have hne : j % N ≠ s.cursor Stage.capture := by
        rw [hri]; exact mod_ne_of_close (by omega) (by omega)
      rw [hst, if_neg hne]
      exact h.stF j (by omega) (by omega)
  · intro j hj1 hj2
    have hne : j % N ≠ s.cursor Stage.capture := by
      rw [hri]; exact (mod_ne_of_close (by omega) (by omega)).symm
    rw [hst, if_neg hne]
    exact h.stE j (by omega) (by omega)

theorem inv_act_transform {N : Nat} {blk : List Sample} {pick : Stage} {s s' : Pipeline}
    (hN : 0 < N) (h : Inv N s) (hpc : s.pc Stage.transform = Pc.action)
    (hs : s.act N Stage.transform blk pick = some s') : Inv N s' := by
  obtain ⟨ho1, ho2⟩ := inv_act_others h hpc hs
  obtain ⟨_, hlen, hst, hcur, hcnt, _, _, _⟩ := act_spec hs
  have hgap := (transform_slot_filled_iff hN h).1 (h.act _ hpc)
  have hri : s.cursor Stage.transform = s.transformed % N := h.cur _
  have hc : s'.captured = s.captured := by simpa [Pipeline.count] using hcnt Stage.capture
  have ht : s'.transformed = s.transformed + 1 := by
    simpa [Pipeline.count] using hcnt Stage.transform
  have hp : s'.played = s.played := by simpa [Pipeline.count] using hcnt Stage.playback
  have h1 := h.le1
  have h3 := h.le3
  refine ⟨hlen.trans h.len, ?_, by omega, by omega, by omega, ?_, ?_, ?_, ho1, ho2⟩
  · intro o
    rw [hcur, hcnt]
    by_cases e : o = Stage.transform
    · simp only [e, if_true]
      rw [h.cur, Nat.mod_add_mod]
    · simp only [e, if_false]
      exact h.cur o
  · intro j hj1 hj2
    by_cases hj : j = s.transformed
    · rw [hst, hj, ← hri]; simp [Stage.target]
    · have hne : j % N ≠ s.cursor Stage.transform := by
        rw [hri]; exact mod_ne_of_close (by omega) (by omega)
      rw [hst, if_neg hne]
      exact h.stP j (by omega) (by omega)
  · intro j hj1 hj2
    have hne : j % N ≠ s.cursor Stage.transform := by
      rw [hri]; exact (mod_ne_of_close (by omega) (by omega)).symm
    rw [hst, if_neg hne]
    exact h.stF j (by omega) (by omega)
  · intro j hj1 hj2
    have hne : j % N ≠ s.cursor Stage.transform := by
      rw [hri]; exact (mod_ne_of_close (by omega) (by omega)).symm
    rw [hst, if_neg hne]
    exact h.stE j (by omega) (by omega)

theorem inv_act_playback {N : Nat} {blk : List Sample} {pick : Stage} {s s' : Pipeline}
    (hN : 0 < N) (h : Inv N s) (hpc : s.pc Stage.playback = Pc.action)
    (hs : s.act N Stage.playback blk pick = some s') : Inv N s' := by
  obtain ⟨ho1, ho2⟩ := inv_act_others h hpc hs
  obtain ⟨_, hlen, hst, hcur, hcnt, _, _, _⟩ := act_spec hs
  have hgap := (playback_slot_processed_iff hN h).1 (h.act _ hpc)
  have hri : s.cursor Stage.playback = s.played % N := h.cur _
  have hc : s'.captured = s.captured := by simpa [Pipeline.count] using hcnt Stage.capture
  have ht : s'.transformed = s.transformed := by
    simpa [Pipeline.count] using hcnt Stage.transform
  have hp : s'.played = s.played + 1 := by simpa [Pipeline.count] using hcnt Stage.playback
  have h2 := h.le2
  have h3 := h.le3
  refine ⟨hlen.trans h.len, ?_, by omega, by omega, by omega, ?_, ?_, ?_, ho1, ho2⟩
  · intro o
    rw [hcur, hcnt]
    by_cases e : o = Stage.playback
    · simp only [e, if_true]
      rw [h.cur, Nat.mod_add_mod]
    · simp only [e, if_false]
      exact h.cur o
  · intro j hj1 hj2
    have hne : j % N ≠ s.cursor Stage.playback := by
      rw [hri]; exact (mod_ne_of_close (by omega) (by omega)).symm
    rw [hst, if_neg hne]
    exact h.stP j (by omega) (by omega)
  · intro j hj1 hj2
    have hne : j % N ≠ s.cursor Stage.playback := by
      rw [hri]; exact (mod_ne_of_close (by omega) (by omega)).symm
    rw [hst, if_neg hne]
    exact h.stF j (by omega) (by omega)
  · intro j hj1 hj2
    by_cases hj : j = s.played + N
    · have hm : j % N = s.cursor Stage.playback := by rw [hri, hj]; simp
      rw [hst, if_pos hm]; simp [Stage.target]
    · have hne : j % N ≠ s.cursor Stage.playback := by
        rw [hri]; exact (mod_ne_of_close (by omega) (by omega)).symm
      rw [hst, if_neg hne]
      exact h.stE j (by omega) (by omega)

theorem inv_act {N : Nat} {st : Stage} {blk : List Sample} {pick : Stage} {s s' : Pipeline}
    (hN : 0 < N) (h : Inv N s) (hpc : s.pc st = Pc.action)
    (hs : s.act N st blk pick = some s') : Inv N s' := by
  cases st
  · exact inv_act_capture hN h hpc hs
  · exact inv_act_transform hN h hpc hs
  · exact inv_act_playback hN h hpc hs

/-- A step of a stage thread either completes a loop body from `Pc.action`, or
only moves that thread to another control point. -/
theorem stageStep_spec {N : Nat} {st : Stage} {blk : List Sample} {pick : Stage}
    {s s' : Pipeline} (h : stageStep N st blk pick s = some s') :
    (s.pc st = Pc.action ∧ s.act N st blk pick = some s') ∨
    (s.pc st ≠ Pc.action ∧ ∃ p : Pc, s' = s.setPc st p ∧
      (p = Pc.action → s.pc st = Pc.killTest ∧ s.kill_thread = false) ∧
      (p = Pc.killTest → s.pc st = Pc.lockWait ∧
        (s.kill_thread = true ∨ s.statusAt (s.cursor st) = some st.expected))) := by
  unfold stageStep at h
  cases hp : s.pc st <;> rw [hp] at h <;> simp only at h
  · right
    refine ⟨by simp, ?_⟩
    by_cases hk : s.kill_thread = true
    · simp only [hk, if_true, Option.some.injEq] at h
      exact ⟨Pc.exited, h.symm, by simp, by simp⟩
    · simp only [hk, Option.some.injEq] at h
      exact ⟨Pc.lockWait, h.symm, by simp, by simp⟩
  · right
    refine ⟨by simp, ?_⟩
    split at h
    · split at h
      · cases h
      · rename_i slot hslot
        split at h
        · rename_i hc
          simp only [Option.some.injEq] at h
          refine ⟨Pc.killTest, h.symm, by simp, fun _ => ⟨rfl, ?_⟩⟩
          rcases hc with hc | hc
          · right; simp [Pipeline.statusAt, hslot, hc]
          · left; exact hc
        · simp only [Option.some.injEq] at h
          exact ⟨Pc.waitEnter, h.symm, by simp, by simp⟩
    · cases h
  · right
    simp only [Option.some.injEq] at h
    exact ⟨by simp, Pc.parked, h.symm, by simp, by simp⟩
  · cases h
  · right
    refine ⟨by simp, ?_⟩
    by_cases hk : s.kill_thread = true
    · simp only [hk, if_true, Option.some.injEq] at h
      exact ⟨Pc.exited, h.symm, by simp, by simp⟩
    · simp only [hk, Option.some.injEq] at h
      refine ⟨Pc.action, h.symm, fun _ => ⟨rfl, by simpa using hk⟩, by simp⟩
  · left
    exact ⟨rfl, h⟩
  · cases h

theorem inv_stageStep {N : Nat} {st : Stage} {blk : List Sample} {pick : Stage}
    {s s' : Pipeline} (hN : 0 < N) (h : Inv N s)
    (hs : stageStep N st blk pick s = some s') : Inv N s' := by
  rcases stageStep_spec hs with ⟨hpc, ha⟩ | ⟨_, p, rfl, hpa, hpk⟩
  · exact inv_act hN h hpc ha
  · refine inv_setPc h st p ?_ ?_
    · intro e
      obtain ⟨h1, h2⟩ := hpa e
      rcases h.kt st h1 with hk | hk
      · rw [h2] at hk; cases hk
      · exact hk
    · intro e
      exact (hpk e).2

theorem woken_spurious {st : Stage} {s s' : Pipeline}
    (h : spurious_wakeup st s = some s') : Woken s s' := by
  unfold spurious_wakeup at h
  split at h
  · rename_i hp
    cases h
    exact woken_setPc_parked s st hp
  · cases h

/-- What a step of `end_program` does to the state. -/
theorem end_program_step_spec {N : Nat} {s s' : Pipeline}
    (h : end_program_step N s = some s') :
    (s.kill_thread = true → s'.kill_thread = true) ∧ s'.ring_buffer = s.ring_buffer ∧
    (∀ o : Stage, s'.cursor o = s.cursor o) ∧ (∀ o : Stage, s'.count o = s.count o) ∧
    (∀ o : Stage, s'.pc o = s.pc o ∨ (s.pc o = Pc.parked ∧ s'.pc o = Pc.lockWait)) := by
  unfold end_program_step at h
  split at h
  · rename_i he
    cases h
    exact ⟨fun _ => rfl, rfl, fun o => by cases o <;> rfl, fun o => by cases o <;> rfl,
      fun o => Or.inl (by cases o <;> rfl)⟩
  · rename_i i he
    split at h
    · cases h
      have hw := woken_notify_all s i
      refine ⟨fun hk => hw.kill.trans hk, hw.ring, fun o => ?_, fun o => ?_, fun o => ?_⟩
      · rw [← hw.cursor o]; cases o <;> rfl
      · rw [← hw.count o]; cases o <;> rfl
      · have := hw.pc o
        cases o <;> exact this
    · cases h

theorem inv_end_program_step {N : Nat} {s s' : Pipeline} (h : Inv N s)
    (hs : end_program_step N s = some s') : Inv N s' := by
  obtain ⟨hk, hr, hc, hn, hp⟩ := end_program_step_spec hs
  refine inv_congr h hr hc hn ?_ ?_
  · intro o ho
    rcases hp o with e | ⟨_, e⟩
    · exact h.act o (e ▸ ho)
    · rw [e] at ho; cases ho
  · intro o ho
    rcases hp o with e | ⟨_, e⟩
    · rcases h.kt o (e ▸ ho) with hk1 | hk1
      · exact Or.inl (hk hk1)
      · exact Or.inr hk1
    · rw [e] at ho; cases ho

/-- Every step keeps the invariant. -/
theorem inv_step {N : Nat} {l : Label} {s s' : Pipeline} (hN : 0 < N) (h : Inv N s)
    (hs : step N l s = some s') : Inv N s' := by
  cases l with
  | read blk pick => exact inv_stageStep hN h hs
  | process blk pick => exact inv_stageStep hN h hs
  | write blk pick => exact inv_stageStep hN h hs
  | endProgram => exact inv_end_program_step h hs
  | spurious st => exact inv_woken h (woken_spurious hs)

theorem inv_run {N : Nat} (hN : 0 < N) (ls : List Label) :
    ∀ s s' : Pipeline, Inv N s → run N ls s = some s' → Inv N s' := by
  induction ls with
  | nil =>
    intro s s' h hr
    simp only [run, Option.some.injEq] at hr
    exact hr ▸ h
  | cons l rest ih =>
    intro s s' h hr
    simp only [run] at hr
    cases hl : step N l s with
    | none => rw [hl] at hr; cases hr
    | some s1 =>
      rw [hl] at hr
      exact ih s1 s' (inv_step hN h hl) hr

/-- Every reachable state satisfies the invariant. -/
theorem inv_reachable {N : Nat} (hN : 0 < N) {s : Pipeline} (h : Reachable N s) :
    Inv N s := by
  obtain ⟨ls, hr⟩ := h
  exact inv_run hN ls _ _ (inv_init N) hr

theorem step_ofStage (N : Nat) (st : Stage) (blk : List Sample) (pick : Stage)
    (s : Pipeline) : step N (Label.ofStage st blk pick) s = stageStep N st blk pick s := by
  cases st <;> rfl

/-- What a step does: either it leaves the ring, the indices and the counters
alone, or it is the completed loop body of a stage at `Pc.action`, which
stores that stage's target status at its index, leaves the other slots
alone, and advances that stage's index and counter. -/
theorem step_cases {N : Nat} {l : Label} {s s' : Pipeline}
    (hs : step N l s = some s') :
    (s'.ring_buffer = s.ring_buffer ∧ (∀ o : Stage, s'.cursor o = s.cursor o) ∧
      (∀ o : Stage, s'.count o = s.count o)) ∨
    (∃ (st : Stage) (blk : List Sample) (pick : Stage),
      l = Label.ofStage st blk pick ∧ s.pc st = Pc.action ∧
      (∀ i, s'.statusAt i = if i = s.cursor st then some st.target else s.statusAt i) ∧
      (∀ o : Stage, s'.cursor o = if o = st then (s.cursor st + 1) % N else s.cursor o) ∧
      (∀ o : Stage, s'.count o = if o = st then s.count st + 1 else s.count o)) := by
  have stage : ∀ (st : Stage) (blk : List Sample) (pick : Stage),
      l = Label.ofStage st blk pick → stageStep N st blk pick s = some s' →
      (s'.ring_buffer = s.ring_buffer ∧ (∀ o : Stage, s'.cursor o = s.cursor o) ∧
        (∀ o : Stage, s'.count o = s.count o)) ∨
      (∃ (st : Stage) (blk : List Sample) (pick : Stage),
        l = Label.ofStage st blk pick ∧ s.pc st = Pc.action ∧
        (∀ i, s'.statusAt i = if i = s.cursor st then some st.target else s.statusAt i) ∧
        (∀ o : Stage, s'.cursor o = if o = st then (s.cursor st + 1) % N else s.cursor o) ∧
        (∀ o : Stage, s'.count o = if o = st then s.count st + 1 else s.count o)) := by
    intro st blk pick hl h
    rcases stageStep_spec h with ⟨hpc, ha⟩ | ⟨_, p, rfl, _, _⟩
    · right
      obtain ⟨_, _, h3, h4, h5, _, _, _⟩ := act_spec ha
      exact ⟨st, blk, pick, hl, hpc, h3, h4, h5⟩
    · left
      exact ⟨by simp, by simp, by simp⟩
  cases l with
  | read blk pick => exact stage Stage.capture blk pick rfl hs
  | process blk pick => exact stage Stage.transform blk pick rfl hs
  | write blk pick => exact stage Stage.playback blk pick rfl hs
  | endProgram =>
    left
    obtain ⟨_, hr, hc, hn, _⟩ := end_program_step_spec hs
    exact ⟨hr, hc, hn⟩
  | spurious st =>
    left
    have hw := woken_spurious hs
    exact ⟨hw.ring, hw.cursor, hw.count⟩

/-- No step clears `kill_thread`. -/
theorem step_kill_mono {N : Nat} {l : Label} {s s' : Pipeline}
    (hs : step N l s = some s') (hk : s.kill_thread = true) : s'.kill_thread = true := by
  have stage : ∀ (st : Stage) (blk : List Sample) (pick : Stage),
      stageStep N st blk pick s = some s' → s'.kill_thread = true := by
    intro st blk pick h
    rcases stageStep_spec h with ⟨_, ha⟩ | ⟨_, p, rfl, _, _⟩
    · rw [(act_spec ha).2.2.2.2.2.2.2]; exact hk
    · simpa using hk
  cases l with
  | read blk pick => exact stage _ _ _ hs
  | process blk pick => exact stage _ _ _ hs
  | write blk pick => exact stage _ _ _ hs
  | endProgram => exact (end_program_step_spec hs).1 hk
  | spurious st => rw [(woken_spurious hs).kill]; exact hk

/-! ## Wake-ups, the lock discipline, and capture's progress -/

theorem notify_one_enabled (s : Pipeline) (i : Nat) :
    ∃ (pick : Stage) (s' : Pipeline), s.notify_one i pick = some s' := by
  by_cases h : [Stage.capture, Stage.transform, Stage.playback].all
      (fun o => ¬ s.isWaiter o i) = true
  · exact ⟨Stage.capture, s, by unfold Pipeline.notify_one; rw [if_pos h]⟩
  · have hex : ∃ o : Stage, s.isWaiter o i = true := by
      by_contra hne
      apply h
      simp only [not_exists, Bool.not_eq_true] at hne
      simp [hne]
    obtain ⟨o, ho⟩ := hex
    exact ⟨o, s.setPc o Pc.lockWait, by
      unfold Pipeline.notify_one; rw [if_neg h, if_pos ho]⟩

theorem notify_one_pc {s s' : Pipeline} {i : Nat} {pick : Stage}
    (h : s.notify_one i pick = some s') (o : Stage) :
    s'.pc o = s.pc o ∨ (s.isWaiter o i = true ∧ o = pick ∧ s'.pc o = Pc.lockWait) := by
  unfold Pipeline.notify_one at h
  split at h
  · cases h; left; rfl
  · split at h
    · rename_i hw
      cases h
      rw [setPc_pc]
      by_cases e : o = pick
      · right; subst e; exact ⟨hw, rfl, by simp⟩
      · left; simp [e]
    · cases h

theorem notify_one_endPc {s s' : Pipeline} {i : Nat} {pick : Stage}
    (h : s.notify_one i pick = some s') : s'.endPc = s.endPc := by
  unfold Pipeline.notify_one at h
  split at h
  · cases h; rfl
  · split at h
    · cases h; simp
    · cases h

/-- A `notify_one` on a slot with exactly one blocked stage releases it. -/
theorem notify_one_single {s s' : Pipeline} {i : Nat} {pick : Stage}
    (h : s.notify_one i pick = some s') (o : Stage) (ho : s.isWaiter o i = true)
    (honly : ∀ o' : Stage, o' ≠ o → s.isWaiter o' i = false) :
    s'.pc o = Pc.lockWait := by
  unfold Pipeline.notify_one at h
  split at h
  · rename_i hall
    exfalso
    have : s.isWaiter o i = false := by
      cases o <;> simp at hall <;> simp [hall]
    rw [ho] at this; cases this
  · split at h
    · rename_i hw
      cases h
      have e : pick = o := by
        by_contra hne
        rw [honly pick hne] at hw; cases hw
      subst e
      simp [setPc_pc]
    · cases h

theorem act_unfold {N : Nat} {st : Stage} {blk : List Sample} {pick : Stage}
    {s s' : Pipeline} (h : s.act N st blk pick = some s') :
    ∃ (slot : ring_buffer_slot) (s2 : Pipeline),
      s.ring_buffer[s.cursor st]? = some slot ∧
      (s.store (s.cursor st)
        { block := st.external blk slot.block, status := st.target }).notify_one
        (s.cursor st) pick = some s2 ∧
      s' = s2.advance N st := by
  unfold Pipeline.act at h
  split at h
  · cases h
  · rename_i slot hslot
    cases hn : (s.store (s.cursor st)
        { block := st.external blk slot.block, status := st.target }).notify_one
        (s.cursor st) pick with
    | none => rw [hn] at h; cases h
    | some s2 =>
      rw [hn] at h
      simp only [Option.map_some', Option.some.injEq] at h
      exact ⟨slot, s2, hslot, hn, h.symm⟩

@[simp] theorem store_isWaiter (s : Pipeline) (i j : Nat) (x : ring_buffer_slot)
    (o : Stage) : (s.store i x).isWaiter o j = s.isWaiter o j := by
  simp [Pipeline.isWaiter]

/-- Effect of a completed loop body on the other stages' control points and on
the progress of `end_program`. -/
theorem act_wakes {N : Nat} {st : Stage} {blk : List Sample} {pick : Stage}
    {s s' : Pipeline} (h : s.act N st blk pick = some s') :
    (∀ o : Stage, o ≠ st → s'.pc o = s.pc o ∨
      (s.isWaiter o (s.cursor st) = true ∧ o = pick ∧ s'.pc o = Pc.lockWait)) ∧
    (∀ o : Stage, o ≠ st → s.isWaiter o (s.cursor st) = true →
      (∀ o' : Stage, o' ≠ o → s.isWaiter o' (s.cursor st) = false) →
      s'.pc o = Pc.lockWait) ∧
    s'.endPc = s.endPc := by
  obtain ⟨slot, s2, _, hn, rfl⟩ := act_unfold h
  refine ⟨?_, ?_, ?_⟩
  · intro o e
    rw [advance_pc, if_neg e]
    simpa using notify_one_pc hn o
  · intro o e ho honly
    rw [advance_pc, if_neg e]
    exact notify_one_single hn o (by simpa using ho) (fun o' e' => by simpa using honly o' e')
  · rw [advance_endPc, notify_one_endPc hn, store_endPc]

/-- A stage at a slot inside the ring can always complete its loop body: some
choice of released waiter is admissible. -/
theorem act_enabled (N : Nat) (st : Stage) (blk : List Sample) (s : Pipeline)
    (hl : s.cursor st < s.ring_buffer.length) :
    ∃ (pick : Stage) (s' : Pipeline), s.act N st blk pick = some s' := by
  have hsome : s.ring_buffer[s.cursor st]? = some (s.ring_buffer[s.cursor st]) :=
    List.getElem?_eq_getElem hl
  obtain ⟨pick, s2, h2⟩ := notify_one_enabled
    (s.store (s.cursor st)
      { block := st.external blk (s.ring_buffer[s.cursor st]).block, status := st.target })
    (s.cursor st)
  refine ⟨pick, s2.advance N st, ?_⟩
  unfold Pipeline.act
  rw [hsome]
  simp only [h2, Option.map_some']

theorem mutexFree_other {s : Pipeline} {st o : Stage} {i : Nat}
    (h : s.mutexFree st i = true) (e : o ≠ st) : s.holdsLock o i = false := by
  cases st <;> cases o <;> simp [Pipeline.mutexFree] at h e ⊢ <;> simp [h]

theorem holdsLock_iff (s : Pipeline) (o : Stage) (i : Nat) :
    s.holdsLock o i = true ↔
      s.cursor o = i ∧ (s.pc o = Pc.waitEnter ∨ s.pc o = Pc.killTest ∨ s.pc o = Pc.action) := by
  simp [Pipeline.holdsLock]

theorem holdsLock_of_woken {s s' : Pipeline} {o : Stage} {i : Nat}
    (hc : s'.cursor o = s.cursor o)
    (hp : s'.pc o = s.pc o ∨ (s.pc o = Pc.parked ∧ s'.pc o = Pc.lockWait))
    (h : s'.holdsLock o i = true) : s.holdsLock o i = true := by
  rw [holdsLock_iff] at h ⊢
  rcases hp with e | ⟨_, e⟩
  · rw [← hc, ← e]; exact h
  · rw [e] at h; simp at h

theorem lockInv_of_weaker {s s' : Pipeline} (h : LockInv s)
    (hh : ∀ (o : Stage) (i : Nat), s'.holdsLock o i = true → s.holdsLock o i = true)
    (he : ∀ o : Stage, s'.pc o = Pc.exited → s'.kill_thread = true)
    (hn : s'.endPc ≠ none → s'.kill_thread = true) : LockInv s' :=
  ⟨fun a b i e ha hb => h.mutex a b i e (hh a i ha) (hh b i hb), he, hn⟩

theorem lockInv_init (N : Nat) : LockInv (init N) := by
  refine ⟨?_, ?_, ?_⟩
  · intro a b i _ ha _
    rw [holdsLock_iff] at ha
    cases a <;> simp [init, Pipeline.pc] at ha
  · intro o ho; cases o <;> simp [init, Pipeline.pc] at ho
  · intro hne; simp [init] at hne

/-- A step of a stage thread that only moves its control point takes the
slot mutex only when it is free, keeps it from `Pc.killTest` to `Pc.action`,
and leaves the loop only when `kill_thread` is set. -/
theorem stageStep_lock {N : Nat} {st : Stage} {blk : List Sample} {pick : Stage}
    {s s' : Pipeline} (h : stageStep N st blk pick s = some s') :
    (s.pc st = Pc.action ∧ s.act N st blk pick = some s') ∨
    (∃ p : Pc, s' = s.setPc st p ∧
      ((p = Pc.waitEnter ∨ p = Pc.killTest ∨ p = Pc.action) →
        (s.pc st = Pc.lockWait ∧ s.mutexFree st (s.cursor st) = true) ∨
          s.pc st = Pc.killTest) ∧
      (p = Pc.exited → s.kill_thread = true)) := by
  unfold stageStep at h
  cases hp : s.pc st <;> rw [hp] at h <;> simp only at h
  · right
    by_cases hk : s.kill_thread = true
    · simp only [hk, if_true, Option.some.injEq] at h
      exact ⟨Pc.exited, h.symm, by simp, fun _ => hk⟩
    · simp only [hk, Option.some.injEq] at h
      exact ⟨Pc.lockWait, h.symm, by simp, by simp⟩
  · right
    split at h
    · rename_i hfree
      split at h
      · cases h
      · split at h
        · simp only [Option.some.injEq] at h
          exact ⟨Pc.killTest, h.symm, fun _ => Or.inl ⟨rfl, hfree⟩, by simp⟩
        · simp only [Option.some.injEq] at h
          exact ⟨Pc.waitEnter, h.symm, fun _ => Or.inl ⟨rfl, hfree⟩, by simp⟩
    · cases h
  · right
    simp only [Option.some.injEq] at h
    exact ⟨Pc.parked, h.symm, by simp, by simp⟩
  · cases h
  · right
    by_cases hk : s.kill_thread = true
    · simp only [hk, if_true, Option.some.injEq] at h
      exact ⟨Pc.exited, h.symm, by simp, fun _ => hk⟩
    · simp only [hk, Option.some.injEq] at h
      exact ⟨Pc.action, h.symm, fun _ => Or.inr rfl, by simp⟩
  · left
    exact ⟨rfl, h⟩
  · cases h

theorem lockInv_stageStep {N : Nat} {st : Stage} {blk : List Sample} {pick : Stage}
    {s s' : Pipeline} (h : LockInv s) (hs : stageStep N st blk pick s = some s') :
    LockInv s' := by
  rcases stageStep_lock hs with ⟨_, ha⟩ | ⟨p, rfl, hheld, hex⟩
  · obtain ⟨_, _, _, hcur, _, hpc', _, hkill⟩ := act_spec ha
    obtain ⟨hw, _, hend⟩ := act_wakes ha
    refine lockInv_of_weaker h ?_ ?_ ?_
    · intro o i ho
      by_cases e : o = st
      · subst e
        rw [holdsLock_iff, hpc'] at ho
        simp at ho
      · refine holdsLock_of_woken (by rw [hcur]; simp [e]) ?_ ho
        rcases hw o e with e1 | ⟨hwo, _, e1⟩
        · exact Or.inl e1
        · simp [Pipeline.isWaiter] at hwo
          exact Or.inr ⟨hwo.2, e1⟩
    · intro o ho
      rw [hkill]
      by_cases e : o = st
      · subst e; rw [hpc'] at ho; cases ho
      · rcases hw o e with e1 | ⟨_, _, e1⟩
        · exact h.exited o (e1 ▸ ho)
        · rw [e1] at ho; cases ho
    · intro hne
      rw [hkill]
      exact h.ending (hend ▸ hne)
  · have hother : ∀ (o : Stage) (i : Nat), o ≠ st →
        (s.setPc st p).holdsLock o i = true → s.holdsLock o i = true := by
      intro o i e ho
      rw [holdsLock_iff] at ho ⊢
      rw [setPc_pc, if_neg e, setPc_cursor] at ho
      exact ho
    have hself : ∀ (b : Stage) (i : Nat), b ≠ st →
        (s.setPc st p).holdsLock st i = true → s.holdsLock b i = true → False := by
      intro b i e hst hb
      rw [holdsLock_iff, setPc_cursor, setPc_pc, if_pos rfl] at hst
      rcases hheld hst.2 with ⟨_, hfree⟩ | hk
      · rw [hst.1] at hfree
        rw [mutexFree_other hfree e] at hb
        cases hb
      · exact h.mutex st b i (fun e' => e e'.symm)
          ((holdsLock_iff _ _ _).2 ⟨hst.1, Or.inr (Or.inl hk)⟩) hb
    refine ⟨?_, ?_, ?_⟩
    · intro a b i e ha hb
      by_cases ea : a = st
      · subst ea
        exact hself b i (fun e' => e e'.symm) ha (hother b i (fun e' => e e'.symm) hb)
      · by_cases eb : b = st
        · subst eb
          exact hself a i ea hb (hother a i ea ha)
        · exact h.mutex a b i e (hother a i ea ha) (hother b i eb hb)
    · intro o ho
      rw [setPc_kill]
      rw [setPc_pc] at ho
      by_cases e : o = st
      · rw [if_pos e] at ho; exact hex ho
      · rw [if_neg e] at ho; exact h.exited o ho
    · intro hne
      rw [setPc_kill]
      exact h.ending (by simpa using hne)

theorem lockInv_step {N : Nat} {l : Label} {s s' : Pipeline} (h : LockInv s)
    (hs : step N l s = some s') : LockInv s' := by
  cases l with
  | read blk pick => exact lockInv_stageStep h hs
  | process blk pick => exact lockInv_stageStep h hs
  | write blk pick => exact lockInv_stageStep h hs
  | endProgram =>
    obtain ⟨hk, _, hc, _, hp⟩ := end_program_step_spec hs
    have hkill : s'.kill_thread = true := by
      have hs' : end_program_step N s = some s' := hs
      unfold end_program_step at hs'
      split at hs'
      · cases hs'; rfl
      · rename_i i he
        exact hk (h.ending (by rw [he]; simp))
    refine lockInv_of_weaker h ?_ (fun _ _ => hkill) (fun _ => hkill)
    intro o i ho
    exact holdsLock_of_woken (hc o) (hp o) ho
  | spurious st =>
    have hw := woken_spurious hs
    have hend : s'.endPc = s.endPc := by
      have hs' : spurious_wakeup st s = some s' := hs
      unfold spurious_wakeup at hs'
      split at hs'
      · cases hs'; simp
      · cases hs'
    refine lockInv_of_weaker h ?_ ?_ ?_
    · intro o i ho
      exact holdsLock_of_woken (hw.cursor o) (hw.pc o) ho
    · intro o ho
      rw [hw.kill]
      rcases hw.pc o with e | ⟨_, e⟩
      · exact h.exited o (e ▸ ho)
      · rw [e] at ho; cases ho
    · intro hne
      rw [hw.kill]
      exact h.ending (hend ▸ hne)

theorem lockInv_run {N : Nat} (ls : List Label) :
    ∀ s s' : Pipeline, LockInv s → run N ls s = some s' → LockInv s' := by
  induction ls with
  | nil =>
    intro s s' h hr
    simp only [run, Option.some.injEq] at hr
    exact hr ▸ h
  | cons l rest ih =>
    intro s s' h hr
    simp only [run] at hr
    cases hl : step N l s with
    | none => rw [hl] at hr; cases hr
    | some s1 =>
      rw [hl] at hr
      exact ih s1 s' (lockInv_step h hl) hr

/-- Every reachable state satisfies the lock discipline. -/
theorem lockInv_reachable {N : Nat} {s : Pipeline} (h : Reachable N s) : LockInv s := by
  obtain ⟨ls, hr⟩ := h
  exact lockInv_run ls _ _ (lockInv_init N) hr

theorem captureFills_cons {N k : Nat} {s s1 : Pipeline} (b : List Sample) (pick : Stage)
    (hs : step N (Label.read b pick) s = some s1) (hc : s1.captured = s.captured)
    (hi : s1.read_index = s.read_index) (h : CaptureFillsWithin N k s1) :
    CaptureFillsWithin N (k + 1) s := by
  obtain ⟨ls, s2, hlen, hall, hrun, hcap, hst⟩ := h
  refine ⟨Label.read b pick :: ls, s2, by simpa using hlen, ?_, ?_, by omega, hi ▸ hst⟩
  · intro l hl
    rcases List.mem_cons.1 hl with e | e
    · exact ⟨b, pick, e⟩
    · exact hall l e
  · simp [run, hs, hrun]

theorem captureFills_mono {N k m : Nat} {s : Pipeline} (hkm : k ≤ m)
    (h : CaptureFillsWithin N k s) : CaptureFillsWithin N m s := by
  obtain ⟨ls, s2, hlen, rest⟩ := h
  exact ⟨ls, s2, by omega, rest⟩

theorem setPc_mutexFree_self (s : Pipeline) (st : Stage) (p : Pc) (i : Nat) :
    (s.setPc st p).mutexFree st i = s.mutexFree st i := by
  cases st <;>
    simp [Pipeline.mutexFree, Pipeline.holdsLock, Pipeline.setPc, Pipeline.pc, Pipeline.cursor]

theorem capture_fills_from_action {N : Nat} (b : List Sample) {s : Pipeline}
    (hl : s.read_index < s.ring_buffer.length) (hpc : s.pcRead = Pc.action) :
    CaptureFillsWithin N 1 s := by
  obtain ⟨pick, s2, h2⟩ := act_enabled N Stage.capture b s hl
  have hs : step N (Label.read b pick) s = some s2 := by
    have hpc' : s.pc Stage.capture = Pc.action := hpc
    simp only [step, ReadStream, stageStep, hpc']
    exact h2
  obtain ⟨_, _, hst, _, hcnt, _, _, _⟩ := act_spec h2
  refine ⟨[Label.read b pick], s2, by simp, ?_, by simp [run, hs], ?_, ?_⟩
  · intro l hl'
    exact ⟨b, pick, by simpa using hl'⟩
  · simpa [Pipeline.count] using hcnt Stage.capture
  · have := hst s.read_index
    simpa [Pipeline.cursor, Stage.target] using this

theorem capture_fills_from_killTest {N : Nat} (b : List Sample) {s : Pipeline}
    (hl : s.read_index < s.ring_buffer.length) (hk : s.kill_thread = false)
    (hpc : s.pcRead = Pc.killTest) : CaptureFillsWithin N 2 s := by
  have hpc' : s.pc Stage.capture = Pc.killTest := hpc
  have hs : step N (Label.read b Stage.capture) s =
      some (s.setPc Stage.capture Pc.action) := by
    simp [step, ReadStream, stageStep, hpc', hk]
  exact captureFills_cons b Stage.capture hs rfl rfl
    (capture_fills_from_action b (s := s.setPc Stage.capture Pc.action) hl rfl)

theorem capture_fills_from_lockWait {N : Nat} (b : List Sample) {s : Pipeline}
    (hl : s.read_index < s.ring_buffer.length) (hk : s.kill_thread = false)
    (hE : s.statusAt s.read_index = some SlotStatus.EMPTY)
    (hfree : s.mutexFree Stage.capture s.read_index = true)
    (hpc : s.pcRead = Pc.lockWait) : CaptureFillsWithin N 3 s := by
  have hpc' : s.pc Stage.capture = Pc.lockWait := hpc
  have hfree' : s.mutexFree Stage.capture (s.cursor Stage.capture) = true := hfree
  have hsome : s.ring_buffer[s.cursor Stage.capture]? =
      some (s.ring_buffer[s.read_index]) := List.getElem?_eq_getElem hl
  have hstat : (s.ring_buffer[s.read_index]).status = SlotStatus.EMPTY := by
    have h1 : s.ring_buffer[s.read_index]? = some (s.ring_buffer[s.read_index]) :=
      List.getElem?_eq_getElem hl
    simpa [Pipeline.statusAt, h1] using hE
  have hs : step N (Label.read b Stage.capture) s =
      some (s.setPc Stage.capture Pc.killTest) := by
    simp [step, ReadStream, stageStep, hpc', hfree', hsome, hstat, Stage.expected]
  exact captureFills_cons b Stage.capture hs rfl rfl
    (capture_fills_from_killTest b (s := s.setPc Stage.capture Pc.killTest) hl hk rfl)

theorem capture_fills_from_loopTest {N : Nat} (b : List Sample) {s : Pipeline}
    (hl : s.read_index < s.ring_buffer.length) (hk : s.kill_thread = false)
    (hE : s.statusAt s.read_index = some SlotStatus.EMPTY)
    (hfree : s.mutexFree Stage.capture s.read_index = true)
    (hpc : s.pcRead = Pc.loopTest) : CaptureFillsWithin N 4 s := by
  have hpc' : s.pc Stage.capture = Pc.loopTest := hpc
  have hs : step N (Label.read b Stage.capture) s =
      some (s.setPc Stage.capture Pc.lockWait) := by
    simp [step, ReadStream, stageStep, hpc', hk]
  refine captureFills_cons b Stage.capture hs rfl rfl
    (capture_fills_from_lockWait b (s := s.setPc Stage.capture Pc.lockWait) hl hk ?_ ?_ rfl)
  · simpa using hE
  · have := setPc_mutexFree_self s Stage.capture Pc.lockWait s.read_index
    exact this.trans hfree

theorem end_program_step_kill {N : Nat} {s s' : Pipeline} (h : LockInv s)
    (hs : end_program_step N s = some s') : s'.kill_thread = true := by
  have hk := (end_program_step_spec hs).1
  unfold end_program_step at hs
  split at hs
  · cases hs; rfl
  · rename_i i he
    exact hk (h.ending (by rw [he]; simp))

theorem stuck_stageStep {N : Nat} {st : Stage} {blk : List Sample} {pick : Stage}
    {s s' : Pipeline} (hinv : Inv N s) (hst : CaptureStuck s)
    (hs : stageStep N st blk pick s = some s') :
    CaptureStuck s' ∧ s'.captured = s.captured := by
  have hna : s.pc Stage.capture ≠ Pc.action := by
    rcases hst with ⟨hp, _⟩ | ⟨_, hp⟩
    · intro e
      have hp' : s.pc Stage.capture = Pc.parked := hp
      rw [hp'] at e; cases e
    · exact hp
  rcases stageStep_spec hs with ⟨hpc, ha⟩ | ⟨_, p, rfl, hpa, _⟩
  · have hne : Stage.capture ≠ st := fun e => hna (e ▸ hpc)
    obtain ⟨_, _, hstat, hcur, hcnt, _, _, hkill⟩ := act_spec ha
    obtain ⟨hw, _, _⟩ := act_wakes ha
    have hcap : s'.captured = s.captured := by
      have := hcnt Stage.capture
      rw [if_neg hne] at this
      exact this
    have hidx : s'.read_index = s.read_index := by
      have := hcur Stage.capture
      rw [if_neg hne] at this
      exact this
    refine ⟨?_, hcap⟩
    rcases hst with ⟨hp, hE⟩ | ⟨hk, _⟩
    · left
      have hslot : s.read_index ≠ s.cursor st := by
        intro e
        have h1 := hinv.act st hpc
        rw [← e, hE] at h1
        cases st <;> simp [Stage.expected] at h1
        exact hne rfl
      constructor
      · rcases hw Stage.capture hne with e1 | ⟨hwait, _, _⟩
        · exact e1.trans hp
        · simp only [Pipeline.isWaiter, decide_eq_true_eq] at hwait
          exact absurd hwait.1 hslot
      · rw [hidx, hstat, if_neg hslot]
        exact hE
    · right
      refine ⟨hkill.trans hk, ?_⟩
      rcases hw Stage.capture hne with e1 | ⟨_, _, e1⟩
      · intro e; exact hna (e1 ▸ e)
      · intro e
        have e1' : s'.pcRead = Pc.lockWait := e1
        rw [e1'] at e; cases e
  · refine ⟨?_, by simp⟩
    rcases hst with ⟨hp, hE⟩ | ⟨hk, _⟩
    · have hne : Stage.capture ≠ st := by
        intro e
        subst e
        have hp' : s.pc Stage.capture = Pc.parked := hp
        simp [stageStep, hp'] at hs
      left
      constructor
      · have : (s.setPc st p).pc Stage.capture = s.pc Stage.capture := by
          rw [setPc_pc, if_neg hne]
        exact this.trans hp
      · have hidx : (s.setPc st p).read_index = s.read_index :=
          setPc_cursor s st Stage.capture p
        rw [hidx, setPc_statusAt]
        exact hE
    · right
      refine ⟨by simpa using hk, ?_⟩
      intro e
      have e' : (s.setPc st p).pc Stage.capture = Pc.action := e
      rw [setPc_pc] at e'
      by_cases hst' : Stage.capture = st
      · rw [if_pos hst'] at e'
        have := (hpa e').2
        rw [hk] at this; cases this
      · rw [if_neg hst'] at e'
        exact hna e'

/-- A stuck capture stays stuck, and captures nothing, under every step of
the program's threads. -/
theorem stuck_step {N : Nat} {l : Label} {s s' : Pipeline} (hinv : Inv N s)
    (hlock : LockInv s) (hst : CaptureStuck s) (hl : l.isProgramStep = true)
    (hs : step N l s = some s') : CaptureStuck s' ∧ s'.captured = s.captured := by
  cases l with
  | read blk pick => exact stuck_stageStep hinv hst hs
  | process blk pick => exact stuck_stageStep hinv hst hs
  | write blk pick => exact stuck_stageStep hinv hst hs
  | spurious st => simp [Label.isProgramStep] at hl
  | endProgram =>
    have hs' : end_program_step N s = some s' := hs
    obtain ⟨_, _, _, hn, hp⟩ := end_program_step_spec hs'
    refine ⟨Or.inr ⟨end_program_step_kill hlock hs', ?_⟩, hn Stage.capture⟩
    have hna : s.pc Stage.capture ≠ Pc.action := by
      rcases hst with ⟨hp1, _⟩ | ⟨_, hp1⟩
      · intro e
        have hp' : s.pc Stage.capture = Pc.parked := hp1
        rw [hp'] at e; cases e
      · exact hp1
    intro e
    have e' : s'.pc Stage.capture = Pc.action := e
    rcases hp Stage.capture with e1 | ⟨_, e1⟩
    · exact hna (e1 ▸ e')
    · rw [e1] at e'; cases e'

theorem stuck_run {N : Nat} (hN : 0 < N) (ls : List Label) :
    ∀ s s' : Pipeline, Inv N s → LockInv s → CaptureStuck s →
      (∀ l ∈ ls, l.isProgramStep = true) → run N ls s = some s' →
      s'.captured = s.captured := by
  induction ls with
  | nil =>
    intro s s' _ _ _ _ hr
    simp only [run, Option.some.injEq] at hr
    rw [hr]
  | cons l rest ih =>
    intro s s' hinv hlock hst hall hr
    simp only [run] at hr
    cases hl : step N l s with
    | none => rw [hl] at hr; cases hr
    | some s1 =>
      rw [hl] at hr
      obtain ⟨hst1, hc1⟩ := stuck_step hinv hlock hst (hall l (by simp)) hl
      have := ih s1 s' (inv_step hN hinv hl) (lockInv_step hlock hl) hst1
        (fun l' hl' => hall l' (by simp [hl'])) hr
      rw [this, hc1]

/-- From a reachable state in which capture is stuck, no schedule of program
steps ever completes a capture. -/
theorem stuck_not_canFill {N : Nat} (hN : 0 < N) {s : Pipeline} (hr : Reachable N s)
    (hst : CaptureStuck s) : ¬ CanFill N s := by
  rintro ⟨ls, s2, hall, hrun, hcap⟩
  have := stuck_run hN ls s s2 (inv_reachable hN hr) (lockInv_reachable hr) hst hall hrun
  omega

theorem mutexFree_of_others {s : Pipeline} {st : Stage} {i : Nat}
    (h : ∀ o : Stage, o ≠ st → s.holdsLock o i = false) : s.mutexFree st i = true := by
  have h1 := h Stage.capture
  have h2 := h Stage.transform
  have h3 := h Stage.playback
  cases st <;> simp [Pipeline.mutexFree] at h1 h2 h3 ⊢ <;> simp [*]

theorem canFill_of_fillsWithin {N k : Nat} {s : Pipeline}
    (h : CaptureFillsWithin N k s) : CanFill N s := by
  obtain ⟨ls, s2, _, hall, hrun, hcap, _⟩ := h
  refine ⟨ls, s2, ?_, hrun, hcap⟩
  intro l hl
  obtain ⟨b, pick, rfl⟩ := hall l hl
  rfl

/-- Claim C1: from a ring of `N` slots that all start `EMPTY`, every step of
`ReadStream`, `ProcessBlock`, `WriteBlock` or `end_program` taken in a
reachable state leaves each slot's status as it was or moves it one place
along the cycle `EMPTY → FILLED → PROCESSED → EMPTY`. -/
theorem C1_status_moves_along_cycle (N : Nat) (hN : 0 < N) (s s' : Pipeline) (l : Label)
    (hr : Reachable N s) (hs : step N l s = some s') (i : Nat) :
    s'.statusAt i = s.statusAt i ∨
    ∃ a b : SlotStatus, s.statusAt i = some a ∧ s'.statusAt i = some b ∧
      ((a = SlotStatus.EMPTY ∧ b = SlotStatus.FILLED) ∨
       (a = SlotStatus.FILLED ∧ b = SlotStatus.PROCESSED) ∨
       (a = SlotStatus.PROCESSED ∧ b = SlotStatus.EMPTY)) := by
  have hinv := inv_reachable hN hr
  rcases step_cases hs with ⟨hring, _, _⟩ | ⟨st, _, _, _, hpc, hst, _, _⟩
  · left; simp [Pipeline.statusAt, hring]
  · by_cases hi : i = s.cursor st
    · right
      refine ⟨st.expected, st.target, ?_, ?_, ?_⟩
      · rw [hi]; exact hinv.act st hpc
      · rw [hst, if_pos hi]
      · cases st <;> simp [Stage.expected, Stage.target]
    · left; rw [hst, if_neg hi]

/-- Witness for C1: capture stores `FILLED` into slot `0` of the 16-slot
ring. -/
theorem C1_status_moves_along_cycle_witness :
    0 < RING_SIZE ∧
    Reachable RING_SIZE (afterSchedule RING_SIZE captureReady) ∧
    step RING_SIZE (Label.read exampleBlock Stage.capture)
        (afterSchedule RING_SIZE captureReady) =
      some (afterSchedule RING_SIZE captureOnce) ∧
    ((afterSchedule RING_SIZE captureOnce).statusAt 0 =
        (afterSchedule RING_SIZE captureReady).statusAt 0 ∨
      ∃ a b : SlotStatus, (afterSchedule RING_SIZE captureReady).statusAt 0 = some a ∧
        (afterSchedule RING_SIZE captureOnce).statusAt 0 = some b ∧
        ((a = SlotStatus.EMPTY ∧ b = SlotStatus.FILLED) ∨
         (a = SlotStatus.FILLED ∧ b = SlotStatus.PROCESSED) ∨
         (a = SlotStatus.PROCESSED ∧ b = SlotStatus.EMPTY))) :=
  ⟨by decide, ⟨captureReady, rfl⟩, rfl,
   C1_status_moves_along_cycle RING_SIZE (by decide)
     (afterSchedule RING_SIZE captureReady) (afterSchedule RING_SIZE captureOnce)
     (Label.read exampleBlock Stage.capture) ⟨captureReady, rfl⟩ rfl 0⟩

/-- Claim C2: in every reachable state, with `c`, `t`, `p` the numbers of
loop bodies completed by capture, transform and playback,
`p ≤ t ≤ c ≤ p + N`; each stage's index is its counter modulo `N`. -/
theorem C2_counters_ordered (N : Nat) (hN : 0 < N) (s : Pipeline) (hr : Reachable N s) :
    s.played ≤ s.transformed ∧ s.transformed ≤ s.captured ∧
    s.captured ≤ s.played + N ∧
    s.read_index = s.captured % N ∧ s.process_index = s.transformed % N ∧
    s.write_index = s.played % N := by
  have h := inv_reachable hN hr
  exact ⟨h.le1, h.le2, h.le3, inv_read_index h, inv_process_index h, inv_write_index h⟩

/-- Witness for C2: the 4-slot ring after capture has filled every slot. -/
theorem C2_counters_ordered_witness :
    0 < 4 ∧ Reachable 4 (afterSchedule 4 fillRing4) ∧
    (afterSchedule 4 fillRing4).played ≤ (afterSchedule 4 fillRing4).transformed ∧
    (afterSchedule 4 fillRing4).transformed ≤ (afterSchedule 4 fillRing4).captured ∧
    (afterSchedule 4 fillRing4).captured ≤ (afterSchedule 4 fillRing4).played + 4 :=
  have h := C2_counters_ordered 4 (by decide) (afterSchedule 4 fillRing4) ⟨fillRing4, rfl⟩
  ⟨by decide, ⟨fillRing4, rfl⟩, h.1, h.2.1, h.2.2.1⟩

/-- Claim C4 fails on the code.  In the 16-slot ring, transform and playback
both block on slot `0` while capture is at its loop body; capture fills the
slot and its `notify_one` may release playback: that step is enabled and
leaves transform blocked.  Playback re-checks its predicate and blocks again.
Transform is then blocked on slot `0` although the status is `FILLED`, the
status it waits for, and `kill_thread` is false.  When capture has filled the
other fifteen slots it blocks on slot `0` too, and no stage thread can take a
step (only a wake-up without notification or `end_program` can follow). -/
theorem C4_notify_one_can_release_the_wrong_stage :
    (Reachable RING_SIZE (afterSchedule RING_SIZE bothParked) ∧
      (afterSchedule RING_SIZE bothParked).isWaiter Stage.transform 0 = true ∧
      (afterSchedule RING_SIZE bothParked).isWaiter Stage.playback 0 = true ∧
      (afterSchedule RING_SIZE bothParked).pc Stage.capture = Pc.action ∧
      (afterSchedule RING_SIZE bothParked).cursor Stage.capture = 0 ∧
      ∃ s1, ReadStream RING_SIZE exampleBlock Stage.playback
          (afterSchedule RING_SIZE bothParked) = some s1 ∧
        s1.statusAt 0 = some SlotStatus.FILLED ∧
        s1.pc Stage.playback = Pc.lockWait ∧ s1.pc Stage.transform = Pc.parked) ∧
    (Reachable RING_SIZE (afterSchedule RING_SIZE lostWakeup) ∧
      (afterSchedule RING_SIZE lostWakeup).kill_thread = false ∧
      (afterSchedule RING_SIZE lostWakeup).pc Stage.transform = Pc.parked ∧
      (afterSchedule RING_SIZE lostWakeup).cursor Stage.transform = 0 ∧
      (afterSchedule RING_SIZE lostWakeup).statusAt 0 = some Stage.transform.expected) ∧
    (Reachable RING_SIZE (afterSchedule RING_SIZE lostWakeupStall) ∧
      (afterSchedule RING_SIZE lostWakeupStall).kill_thread = false ∧
      (afterSchedule RING_SIZE lostWakeupStall).captured = 16 ∧
      (afterSchedule RING_SIZE lostWakeupStall).transformed = 0 ∧
      (∀ (st : Stage) (blk : List Sample) (pick : Stage),
        step RING_SIZE (Label.ofStage st blk pick)
          (afterSchedule RING_SIZE lostWakeupStall) = none)) := by
  refine ⟨⟨⟨bothParked, rfl⟩, rfl, rfl, rfl, rfl, ?_⟩,
    ⟨⟨lostWakeup, rfl⟩, rfl, rfl, rfl, rfl⟩,
    ⟨⟨lostWakeupStall, rfl⟩, rfl, rfl, rfl, ?_⟩⟩
  · exact ⟨afterSchedule RING_SIZE (bothParked ++ [Label.read exampleBlock Stage.playback]),
      rfl, rfl, rfl, rfl⟩
  · intro st blk pick
    cases st <;> rfl

/-- Claim C5: for every stage, index and ring contents, a stage whose wait
has returned while `kill_thread` is set leaves its loop, and the ring (status
and samples of every slot), all indices and all counters are unchanged; the
same holds when the wait predicate is evaluated with `kill_thread` set,
whatever the slot's status.  In the 16-slot ring with transform blocked on
slot `2` while it is `EMPTY`, after `end_program` has set the flag and
notified slots `0` to `2`, transform's next two steps end its loop with the
ring unchanged and slot `2` still `EMPTY`. -/
theorem C5_exit_on_shutdown_changes_nothing :
    (∀ (N : Nat) (st : Stage) (blk : List Sample) (pick : Stage) (s : Pipeline),
      s.kill_thread = true → s.pc st = Pc.killTest →
      ∃ s', stageStep N st blk pick s = some s' ∧ s'.pc st = Pc.exited ∧
        s'.ring_buffer = s.ring_buffer ∧ (∀ o : Stage, s'.cursor o = s.cursor o) ∧
        (∀ o : Stage, s'.count o = s.count o)) ∧
    (∀ (N : Nat) (st : Stage) (blk : List Sample) (pick : Stage) (s : Pipeline),
      s.kill_thread = true → s.pc st = Pc.lockWait → s.mutexFree st (s.cursor st) = true →
      s.cursor st < s.ring_buffer.length →
      ∃ s1 s2, stageStep N st blk pick s = some s1 ∧ s1.pc st = Pc.killTest ∧
        stageStep N st blk pick s1 = some s2 ∧ s2.pc st = Pc.exited ∧
        s2.ring_buffer = s.ring_buffer ∧ (∀ o : Stage, s2.cursor o = s.cursor o) ∧
        (∀ o : Stage, s2.count o = s.count o)) ∧
    ((afterSchedule RING_SIZE transformParkedOnSlot2).pc Stage.transform = Pc.parked ∧
      (afterSchedule RING_SIZE transformParkedOnSlot2).cursor Stage.transform = 2 ∧
      (afterSchedule RING_SIZE transformParkedOnSlot2).statusAt 2 = some SlotStatus.EMPTY ∧
      run RING_SIZE (List.replicate 4 Label.endProgram)
          (afterSchedule RING_SIZE transformParkedOnSlot2) =
        some (afterSchedule RING_SIZE shutdownReachesSlot2) ∧
      ∃ s2, run RING_SIZE (List.replicate 2 (Label.process exampleBlock Stage.capture))
          (afterSchedule RING_SIZE shutdownReachesSlot2) = some s2 ∧
        s2.pc Stage.transform = Pc.exited ∧ s2.cursor Stage.transform = 2 ∧
        s2.statusAt 2 = some SlotStatus.EMPTY ∧
        s2.ring_buffer = (afterSchedule RING_SIZE transformParkedOnSlot2).ring_buffer) := by
  refine ⟨?_, ?_, ?_⟩
  · intro N st blk pick s hk hp
    refine ⟨s.setPc st Pc.exited, ?_, ?_, by simp, by simp, by simp⟩
    · simp [stageStep, hp, hk]
    · simp [setPc_pc]
  · intro N st blk pick s hk hp hm hl
    refine ⟨s.setPc st Pc.killTest, (s.setPc st Pc.killTest).setPc st Pc.exited, ?_, ?_, ?_,
      ?_, by simp, by simp, by simp⟩
    · have hsome : s.ring_buffer[s.cursor st]? = some (s.ring_buffer[s.cursor st]) :=
        List.getElem?_eq_getElem hl
      simp [stageStep, hp, hk, hm, hsome]
    · simp [setPc_pc]
    · simp [stageStep, setPc_pc, hk]
    · simp [setPc_pc]
  · refine ⟨rfl, rfl, rfl, rfl, ?_⟩
    exact ⟨afterSchedule RING_SIZE
        (shutdownReachesSlot2 ++ List.replicate 2 (Label.process exampleBlock Stage.capture)),
      rfl, rfl, rfl, rfl, rfl⟩

/-- Witness for C5: transform in the 16-slot ring, released by the
`notify_all` of `end_program` while blocked on the `EMPTY` slot `2`. -/
theorem C5_exit_on_shutdown_changes_nothing_witness :
    (afterSchedule RING_SIZE shutdownReachesSlot2).kill_thread = true ∧
    (afterSchedule RING_SIZE shutdownReachesSlot2).pc Stage.transform = Pc.lockWait ∧
    ∃ s1 s2,
      stageStep RING_SIZE Stage.transform exampleBlock Stage.capture
        (afterSchedule RING_SIZE shutdownReachesSlot2) = some s1 ∧
      s1.pc Stage.transform = Pc.killTest ∧
      stageStep RING_SIZE Stage.transform exampleBlock Stage.capture s1 = some s2 ∧
      s2.pc Stage.transform = Pc.exited ∧
      s2.ring_buffer = (afterSchedule RING_SIZE shutdownReachesSlot2).ring_buffer ∧
      (∀ o : Stage, s2.cursor o = (afterSchedule RING_SIZE shutdownReachesSlot2).cursor o) ∧
      (∀ o : Stage, s2.count o = (afterSchedule RING_SIZE shutdownReachesSlot2).count o) :=
  ⟨rfl, rfl,
   C5_exit_on_shutdown_changes_nothing.2.1 RING_SIZE Stage.transform exampleBlock
     Stage.capture (afterSchedule RING_SIZE shutdownReachesSlot2) rfl rfl rfl (by decide)⟩

/-- Claim C6: for every finite input of `GetUserInput` from the startup state,
`SHIFT_AMOUNT` after each character lies in `[0.5, 2.0]`; and `u` processed in
Shift mode at `2.0`, or `d` at `0.5`, leaves it unchanged (the loop body
reports the limit instead). -/
theorem C6_parameter_within_bounds :
    (∀ (keys : List Char) (n : Nat),
      1 / 2 ≤ (GetUserInput (keys.take n) startup).SHIFT_AMOUNT ∧
      (GetUserInput (keys.take n) startup).SHIFT_AMOUNT ≤ 2) ∧
    (∀ c : Control, c.state = SHIFT → c.SHIFT_AMOUNT = 2 →
      (GetUserInput_body 'u' c).1.SHIFT_AMOUNT = c.SHIFT_AMOUNT ∧
      (GetUserInput_body 'u' c).1.printed = c.printed ++ [Message.limitReached]) ∧
    (∀ c : Control, c.state = SHIFT → c.SHIFT_AMOUNT = 1 / 2 →
      (GetUserInput_body 'd' c).1.SHIFT_AMOUNT = c.SHIFT_AMOUNT ∧
      (GetUserInput_body 'd' c).1.printed = c.printed ++ [Message.limitReached]) := by
  refine ⟨fun keys n => controlInv_bounds _ (controlInv_run _ _ controlInv_startup), ?_, ?_⟩
  · intro c hs ha
    simp [GetUserInput_body, Control.print, PASS, SHIFT, hs, ha]
  · intro c hs ha
    simp [GetUserInput_body, Control.print, PASS, SHIFT, hs, ha]

/-- Witness for C6: the input `s u u u d` read to its end, and the two
boundary states. -/
theorem C6_parameter_within_bounds_witness :
    (1 / 2 ≤ (GetUserInput (['s', 'u', 'u', 'u', 'd'].take 5) startup).SHIFT_AMOUNT ∧
      (GetUserInput (['s', 'u', 'u', 'u', 'd'].take 5) startup).SHIFT_AMOUNT ≤ 2) ∧
    (GetUserInput_body 'u'
        { state := SHIFT, SHIFT_AMOUNT := 2, kill_thread := false, printed := [] }).1.SHIFT_AMOUNT
      = 2 ∧
    (GetUserInput_body 'd'
        { state := SHIFT, SHIFT_AMOUNT := 1 / 2, kill_thread := false,
          printed := [] }).1.SHIFT_AMOUNT = 1 / 2 :=
  ⟨C6_parameter_within_bounds.1 ['s', 'u', 'u', 'u', 'd'] 5,
   (C6_parameter_within_bounds.2.1
      { state := SHIFT, SHIFT_AMOUNT := 2, kill_thread := false, printed := [] } rfl rfl).1,
   (C6_parameter_within_bounds.2.2
      { state := SHIFT, SHIFT_AMOUNT := 1 / 2, kill_thread := false, printed := [] }
      rfl rfl).1⟩

/-- Claim C7 fails as stated: the program starts in Passthrough mode, where
`u` is ignored, so from the startup state `u, u, u` leaves the parameter at
`1.0` and prints nothing. -/
theorem C7_startup_ignores_u :
    GetUserInput ['u', 'u', 'u'] startup = startup ∧
    ¬ ((GetUserInput ['u'] startup).SHIFT_AMOUNT = 3 / 2 ∧
       (GetUserInput ['u', 'u'] startup).SHIFT_AMOUNT = 2 ∧
       (GetUserInput ['u', 'u', 'u'] startup).SHIFT_AMOUNT = 2 ∧
       Message.limitReached ∈ (GetUserInput ['u', 'u', 'u'] startup).printed) := by
  have h : GetUserInput ['u', 'u', 'u'] startup = startup := by
    simp [GetUserInput, GetUserInput_body, startup]
  refine ⟨h, ?_⟩
  rintro ⟨_, _, _, h4⟩
  rw [h] at h4
  simp [startup] at h4

/-- Claim C7, amended: from any control state in Shift mode with the
parameter at `1.0`, the commands `u, u, u` give `1.5`, then `2.0`, and the
third leaves `2.0` and prints the limit notice; the three lines printed are
the two new values and the notice. -/
theorem C7_shift_mode_u_u_u (c : Control) (hs : c.state = SHIFT)
    (ha : c.SHIFT_AMOUNT = 1) :
    (GetUserInput ['u'] c).SHIFT_AMOUNT = 3 / 2 ∧
    (GetUserInput ['u', 'u'] c).SHIFT_AMOUNT = 2 ∧
    (GetUserInput ['u', 'u', 'u'] c).SHIFT_AMOUNT = 2 ∧
    (GetUserInput ['u', 'u', 'u'] c).printed =
      c.printed ++ [Message.shiftAmountNow (3 / 2), Message.shiftAmountNow 2,
        Message.limitReached] := by
  rcases c with ⟨st, amt, k, out⟩
  simp only at hs ha
  subst hs ha
  refine ⟨?_, ?_, ?_, ?_⟩ <;>
    simp [GetUserInput, GetUserInput_body, Control.print, PASS, SHIFT] <;> norm_num

/-- Witness for the amended C7: the state reached from startup by `s`. -/
theorem C7_shift_mode_u_u_u_witness :
    (GetUserInput ['s'] startup).state = SHIFT ∧
    (GetUserInput ['s'] startup).SHIFT_AMOUNT = 1 ∧
    (GetUserInput ['u', 'u', 'u'] (GetUserInput ['s'] startup)).SHIFT_AMOUNT = 2 :=
  have h1 : (GetUserInput ['s'] startup).state = SHIFT := by
    simp [GetUserInput, GetUserInput_body, new_state, Control.print, startup, PASS, SHIFT]
  have h2 : (GetUserInput ['s'] startup).SHIFT_AMOUNT = 1 := by
    simp [GetUserInput, GetUserInput_body, new_state, Control.print, startup, PASS, SHIFT]
  ⟨h1, h2, (C7_shift_mode_u_u_u (GetUserInput ['s'] startup) h1 h2).2.2.1⟩

/-- Claim C8: in Shift mode, whatever the parameter was, the command `p`
moves the mode to Passthrough and sets the parameter to `1.0`; the input loop
keeps running. -/
theorem C8_p_resets_parameter (c : Control) (h : c.state = SHIFT) :
    (GetUserInput_body 'p' c).1.state = PASS ∧
    (GetUserInput_body 'p' c).1.SHIFT_AMOUNT = 1 ∧
    (GetUserInput_body 'p' c).2 = false := by
  simp [GetUserInput_body, new_state, end_program, Control.print, PASS, SHIFT, h]

/-- Witness for C8: Shift mode with the parameter at `2.0`. -/
theorem C8_p_resets_parameter_witness :
    (GetUserInput_body 'p'
        { state := SHIFT, SHIFT_AMOUNT := 2, kill_thread := false, printed := [] }).1.state
      = PASS ∧
    (GetUserInput_body 'p'
        { state := SHIFT, SHIFT_AMOUNT := 2, kill_thread := false, printed := [] }).1.SHIFT_AMOUNT
      = 1 ∧
    (GetUserInput_body 'p'
        { state := SHIFT, SHIFT_AMOUNT := 2, kill_thread := false, printed := [] }).2 = false :=
  C8_p_resets_parameter
    { state := SHIFT, SHIFT_AMOUNT := 2, kill_thread := false, printed := [] } rfl


/-- Claim C9: in either mode `q` sets `kill_thread` and makes `GetUserInput`
return, leaving the mode and the parameter as they were; hence for every
input the final control state is the state right after the first `q`; and
nothing clears `kill_thread`: not the control thread, and no step of the
stage threads or of `end_program`, whose first step sets it. -/
theorem C9_q_requests_shutdown_and_returns :
    (∀ c : Control, c.state = PASS ∨ c.state = SHIFT →
      GetUserInput_body 'q' c = (end_program c, true) ∧
      (end_program c).kill_thread = true ∧ (end_program c).state = c.state ∧
      (end_program c).SHIFT_AMOUNT = c.SHIFT_AMOUNT) ∧
    (∀ (c : Control) (pre post : List Char), c.state = PASS ∨ c.state = SHIFT →
      'q' ∉ pre →
      GetUserInput (pre ++ 'q' :: post) c = GetUserInput (pre ++ ['q']) c ∧
      (GetUserInput (pre ++ 'q' :: post) c).kill_thread = true) ∧
    (∀ (c : Control) (keys : List Char), c.kill_thread = true →
      (GetUserInput keys c).kill_thread = true) ∧
    (∀ (N : Nat) (l : Label) (s s' : Pipeline), step N l s = some s' →
      s.kill_thread = true → s'.kill_thread = true) ∧
    (∀ (N : Nat) (s : Pipeline), s.endPc = none →
      ∃ s', step N Label.endProgram s = some s' ∧ s'.kill_thread = true) := by
  refine ⟨?_, ?_, fun c keys h => run_kill_mono keys c h,
    fun N l s s' hs hk => step_kill_mono hs hk, ?_⟩
  · intro c h
    rcases h with h | h <;> simp [GetUserInput_body, end_program, PASS, SHIFT, h]
  · intro c pre post h hq
    obtain ⟨h1, h2⟩ := run_stops_at_q pre post c h hq
    exact ⟨h1, h1 ▸ h2⟩
  · intro N s h
    refine ⟨{ s with kill_thread := true, endPc := some 0 }, ?_, rfl⟩
    simp [step, end_program_step, h]

/-- Witness for C9: the input `s u q d p` from startup ends in the state
reached after `s u q`, in Shift mode with the parameter at `1.5`. -/
theorem C9_q_requests_shutdown_and_returns_witness :
    GetUserInput (['s', 'u'] ++ 'q' :: ['d', 'p']) startup =
      GetUserInput (['s', 'u'] ++ ['q']) startup ∧
    (GetUserInput (['s', 'u'] ++ 'q' :: ['d', 'p']) startup).kill_thread = true :=
  C9_q_requests_shutdown_and_returns.2.1 startup ['s', 'u'] ['d', 'p'] (Or.inl rfl)
    (by decide)

/-- Claim C10: in every control state reachable from startup, Passthrough mode
implies the parameter is `1.0`; and in Passthrough mode `u` and `d` change
nothing at all and do not end the loop. -/
theorem C10_passthrough_has_identity_parameter :
    (∀ keys : List Char, (GetUserInput keys startup).state = PASS →
      (GetUserInput keys startup).SHIFT_AMOUNT = 1) ∧
    (∀ c : Control, c.state = PASS →
      GetUserInput_body 'u' c = (c, false) ∧ GetUserInput_body 'd' c = (c, false)) := by
  refine ⟨fun keys h => controlInv_pass _ (controlInv_run _ _ controlInv_startup) h, ?_⟩
  intro c h
  simp [GetUserInput_body, h]

/-- Witness for C10: the input `s u p` ends in Passthrough mode, and `u`, `d`
at startup. -/
theorem C10_passthrough_has_identity_parameter_witness :
    (GetUserInput ['s', 'u', 'p'] startup).SHIFT_AMOUNT = 1 ∧
    GetUserInput_body 'u' startup = (startup, false) ∧
    GetUserInput_body 'd' startup = (startup, false) :=
  ⟨C10_passthrough_has_identity_parameter.1 ['s', 'u', 'p']
      (by simp [GetUserInput, GetUserInput_body, new_state, Control.print, startup,
            PASS, SHIFT]),
   (C10_passthrough_has_identity_parameter.2 startup rfl).1,
   (C10_passthrough_has_identity_parameter.2 startup rfl).2⟩

end PitchShifter
